import Mathlib

/-!
Verification development for the xn2v subsystem of the N2V repository:
the compressed-storage-format graph loader (xn2v/csf_graph/csf_graph_tf.py)
and the skip-gram / CBOW batch generators (xn2v/word2vec.py).

The Python code is shallowly embedded: pure computations become Lean
functions, the mutable attributes (data_index, current_sentence,
node_to_index_map) are threaded explicitly as state, Python exceptions
become Except values, and the nondeterminism of random.sample is
parametrised by an explicit sampler function.
-/

namespace N2V

/-! ### Lexicographic order on strings

Python compares strings lexicographically by code point.  Lean's built-in
String order is kernel-opaque (iterator based), so we embed the comparison
directly on the underlying character lists.  charListLe/charListLt are the
(non-strict/strict) lexicographic orders Python's sorted() and < use. -/

def charListLe : List Char → List Char → Bool
  | [], _ => true
  | _ :: _, [] => false
  | a :: as, b :: bs =>
    if a.toNat < b.toNat then true
    else if b.toNat < a.toNat then false
    else charListLe as bs

def charListLt : List Char → List Char → Bool
  | [], [] => false
  | [], _ :: _ => true
  | _ :: _, [] => false
  | a :: as, b :: bs =>
    if a.toNat < b.toNat then true
    else if b.toNat < a.toNat then false
    else charListLt as bs

def strLe (a b : String) : Bool := charListLe a.data b.data

def strLt (a b : String) : Bool := charListLt a.data b.data

/-- StrLeP is the propositional form of strLe, used as the sort relation
for the node list (Python: sorted(nodes)). -/
def StrLeP (a b : String) : Prop := strLe a b = true

instance : DecidableRel StrLeP :=
  fun a b => inferInstanceAs (Decidable (strLe a b = true))

/-! ### The Edge class

Modelled from the spec: the file xn2v/csf_graph/edge.py is not under src/
(only its importer csf_graph_tf.py is), so the Edge class is modelled from
the spec and from the constructor's comments: an Edge carries node_a,
node_b and a weight; edges live in a Python set (so duplicates are
identified by their field values) and are "sorted alphabetically on their
source element", which we realise as the lexicographic order on the
(node_a, node_b, weight) triple. -/

abbrev Edge := String × String × Int

/-- EdgeLeB compares edges lexicographically: first node_a, then node_b,
then weight. -/
def EdgeLeB (e f : Edge) : Bool :=
  if e.1 = f.1 then
    if e.2.1 = f.2.1 then decide (e.2.2 ≤ f.2.2)
    else strLt e.2.1 f.2.1
  else strLt e.1 f.1

/-- EdgeLeP is the propositional form of EdgeLeB, used as the sort
relation for the edge list (Python: sorted(edges)). -/
def EdgeLeP (e f : Edge) : Prop := EdgeLeB e f = true

instance : DecidableRel EdgeLeP :=
  fun e f => inferInstanceAs (Decidable (EdgeLeB e f = true))

/-! ### CSFGraph construction (CSFGraph.__init__, csf_graph_tf.py 53-162)

A parsed edge-file row is a (subject, object, weight) triple.  Weights
are modelled as integers: the arrays edge_weight / edge_to / offset_to_edge_
are numpy int32 arrays, and int32ofInt is numpy's conversion of a Python
int to int32 (wrap-around modulo 2^32). -/

abbrev Row := String × String × Int

/-- The numpy int32 conversion applied when a weight is stored into the
edge_weight array (dtype=np.int32). -/
def int32ofInt (w : Int) : Int := (w + 2 ^ 31) % 2 ^ 32 - 2 ^ 31

/-- The nodes set accumulated by the constructor's read loop
(nodes.add(node_a); nodes.add(node_b)).  A Python set is modelled as a
duplicate-free list; its iteration order is irrelevant because the
constructor sorts it. -/
def collectNodes (rows : List Row) : List String :=
  rows.foldl (fun nodes r => (nodes.insert r.1).insert r.2.1) []

/-- The edges set accumulated by the constructor's read loop: for every
row both Edge(node_a, node_b, weight) and the inverse
Edge(node_b, node_a, weight) are added. -/
def collectEdges (rows : List Row) : List Edge :=
  rows.foldl (fun edges r =>
    (edges.insert (r.1, r.2.1, r.2.2)).insert (r.2.1, r.1, r.2.2)) []

/-- node_list = sorted(nodes). -/
def nodeListOf (rows : List Row) : List String :=
  List.insertionSort StrLeP (collectNodes rows)

/-- edge_list = sorted(edges). -/
def edgeListOf (rows : List Row) : List Edge :=
  List.insertionSort EdgeLeP (collectEdges rows)

/-- The attributes of a constructed CSFGraph that the claims under study
read.  node_to_index_map is a Python dict (defaultdict(int)) and is kept
as an insertion-ordered association list; index_to_node_map is kept as
the list of node labels in index order (defaultdict(str): a missing index
reads as the empty string). -/
structure CSFGraph where
  node_to_index_map : List (String × Nat)
  index_to_node_map : List String
  edge_to : List Nat
  edge_weight : List Int
  offset_to_edge_ : List Nat

/-- The constructor body after the input file has been parsed into rows:
sort the node set, number the nodes, sort the edge set, and build the
CSR arrays.  offset_to_edge_ merges the source's steps 1 and 2 (the
counting dict index2edge_count is keyed by node index, which is injective
on node_list, so the count for node n equals the count of edges whose
node_a is n); step 3 writes the destination index and weight of each
sorted edge consecutively, which is exactly the two map calls. -/
def buildGraph (rows : List Row) : CSFGraph :=
  let node_list := nodeListOf rows
  let edge_list := edgeListOf rows
  { node_to_index_map := node_list.zip (List.range node_list.length)
    index_to_node_map := node_list
    edge_to := edge_list.map (fun e => node_list.indexOf e.2.1)
    edge_weight := edge_list.map (fun e => int32ofInt e.2.2)
    offset_to_edge_ :=
      node_list.scanl (fun off n => off + edge_list.countP (fun e => e.1 = n)) 0 }

/-- Lookup in the defaultdict(int) node_to_index_map: a missing key is
silently inserted with value int() = 0 (at the end, matching dict
insertion order) and 0 is returned. -/
def dictGetDefault (m : List (String × Nat)) (k : String) : Nat × List (String × Nat) :=
  match m.lookup k with
  | some v => (v, m)
  | none => (0, m ++ [(k, 0)])

def CSFGraph.nodes (g : CSFGraph) : List String :=
  g.node_to_index_map.map Prod.fst

def CSFGraph.node_count (g : CSFGraph) : Nat :=
  g.node_to_index_map.length

def CSFGraph.edge_count (g : CSFGraph) : Nat :=
  g.edge_to.length

/-- Reading offset_to_edge_[i] (numpy int32 array, modelled as Nat). -/
def CSFGraph.offsetAt (g : CSFGraph) (i : Nat) : Nat :=
  g.offset_to_edge_.getD i 0

/-- neighbors_as_ints (csf_graph_tf.py 283-299): the loop
for i in range(offset_to_edge_[source_idx], offset_to_edge_[source_idx+1])
collects edge_to[i], i.e. the corresponding slice of edge_to. -/
def CSFGraph.neighbors_as_ints (g : CSFGraph) (source_idx : Nat) : List Nat :=
  (g.edge_to.drop (g.offsetAt source_idx)).take
    (g.offsetAt (source_idx + 1) - g.offsetAt source_idx)

/-- weight_from_ints (csf_graph_tf.py 241-262): scan the slice of the
parallel arrays edge_to / edge_weight, return the weight of the first
entry whose destination matches, else None. -/
def CSFGraph.weight_from_ints (g : CSFGraph) (source_idx dest_idx : Nat) : Option Int :=
  ((((g.edge_to.zip g.edge_weight).drop (g.offsetAt source_idx)).take
      (g.offsetAt (source_idx + 1) - g.offsetAt source_idx)).find?
    (fun p => p.1 = dest_idx)).map Prod.snd

/-- weight (csf_graph_tf.py 213-239): defaultdict lookups of both names
(each may mutate node_to_index_map), then the same scan loop as
weight_from_ints. -/
def CSFGraph.weight (g : CSFGraph) (source dest : String) : Option Int × CSFGraph :=
  let s := dictGetDefault g.node_to_index_map source
  let d := dictGetDefault s.2 dest
  (((((g.edge_to.zip g.edge_weight).drop (g.offsetAt s.1)).take
      (g.offsetAt (s.1 + 1) - g.offsetAt s.1)).find?
    (fun p => p.1 = d.1)).map Prod.snd,
   { g with node_to_index_map := d.2 })

/-- neighbors (csf_graph_tf.py 264-281): defaultdict lookup of the source
name, then map index_to_node_map over the edge_to slice. -/
def CSFGraph.neighbors (g : CSFGraph) (source : String) : List String × CSFGraph :=
  let s := dictGetDefault g.node_to_index_map source
  (((g.edge_to.drop (g.offsetAt s.1)).take
      (g.offsetAt (s.1 + 1) - g.offsetAt s.1)).map
    (fun t => g.index_to_node_map.getD t ""),
   { g with node_to_index_map := s.2 })

/-- has_edge (csf_graph_tf.py 301-321): defaultdict lookups of both
names, then scan the edge_to slice for the destination index. -/
def CSFGraph.has_edge (g : CSFGraph) (src dest : String) : Bool × CSFGraph :=
  let s := dictGetDefault g.node_to_index_map src
  let d := dictGetDefault s.2 dest
  (((g.edge_to.drop (g.offsetAt s.1)).take
      (g.offsetAt (s.1 + 1) - g.offsetAt s.1)).any (fun nbr => nbr = d.1),
   { g with node_to_index_map := d.2 })

/-! ### CSFGraph.__init__ entry checks and parse_header (csf_graph_tf.py 53-59, 164-191)

The edge_file argument is a Python value (None, a str, or something
else); the filesystem is modelled as a partial map from paths to the
list of lines of the file. -/

inductive PyArg where
  | pyNone : PyArg
  | pyStr : String → PyArg
  | pyOther : PyArg

inductive PyError where
  | typeError : String → PyError
  | valueError : String → PyError
  | unboundLocalError : PyError
deriving DecidableEq

structure HeaderInfo where
  is_legacy : Bool
  header_items : List String

/-- parse_header (csf_graph_tf.py 164-191).  The body declares
`header_info: Dict[str, Union[list, bool]]` as a bare annotation, which in
Python does not create the variable, and the very next statement
`header_info['is_legacy'] = False` therefore raises UnboundLocalError on
every call, whatever the file contains.  The embedding returns that error
unconditionally. -/
def parse_header (lines : List String) : Except PyError HeaderInfo :=
  Except.error PyError.unboundLocalError

/-- Python line.split(): split on whitespace runs, dropping empty fields.
Only used by the (unreachable) successful branch of the constructor. -/
def splitFields (line : String) : List String :=
  (line.split Char.isWhitespace).filter (fun t => t ≠ "")

/-- dict(zip(header_items, fields)) followed by the subject / object /
weight extraction of the read loop (csf_graph_tf.py 76-91).  Only used by
the (unreachable) successful branch of the constructor; the weight-parse
error swallowing of lines 86-91 is not modelled there. -/
def rowOfLine (header_items : List String) (default_weight : Int) (line : String) : Row :=
  let items := header_items.zip (splitFields line)
  ((items.lookup "subject").getD "",
   (items.lookup "object").getD "",
   match items.lookup "weight" with
   | none => default_weight
   | some w => (w.toInt?).getD 0)

/-- CSFGraph.__init__ (csf_graph_tf.py 53-162): the None / non-str /
missing-file checks, then parse_header, then (were parse_header to
succeed) the read loop and graph construction. -/
def CSFGraph_init (edge_file : PyArg) (fs : String → Option (List String))
    (default_weight : Int) : Except PyError CSFGraph :=
  match edge_file with
  | PyArg.pyNone => Except.error (PyError.typeError "The filepath attribute cannot be empty.")
  | PyArg.pyOther => Except.error (PyError.typeError "The filepath attribute must be type str")
  | PyArg.pyStr path =>
    match fs path with
    | none => Except.error (PyError.valueError ("Could not find graph file " ++ path))
    | some lines =>
      match parse_header lines with
      | Except.error e => Except.error e
      | Except.ok info =>
        let body := if info.is_legacy then lines else lines.drop 1
        Except.ok (buildGraph (body.map (rowOfLine info.header_items default_weight)))

/-! ### Word2Vec.calculate_vocabulary_size and the num_sampled adjustment
(word2vec.py 95-109, 191-197, 512-518)

For data given as a list of walks the `any(isinstance(el, list))` test
selects the flattened branch whenever data is non-empty; for empty data
both branches compute min(max_vocabulary_size, 1), so the flattened
formula is exact for every list-of-lists input.  The num_sampled
replacement uses Python's true division, so the result can be a
non-integer; it is modelled in ℚ. -/

def calculate_vocabulary_size (data : List (List Int)) (max_vocabulary_size : Nat) : Nat :=
  min max_vocabulary_size (data.flatten.dedup.length + 1)

def calculate_vocabulary_size_flat (data : List Int) (max_vocabulary_size : Nat) : Nat :=
  min max_vocabulary_size (data.dedup.length + 1)

def adjust_num_sampled (num_sampled : ℚ) (vocabulary_size : Nat) : ℚ :=
  if num_sampled > (vocabulary_size : ℚ) then (vocabulary_size : ℚ) / 2 else num_sampled

/-! ### SkipGramWord2Vec.next_batch (word2vec.py 286-345)

The sliding buffer is a deque of maximal length span = 2*skip_window+1;
self.data_index is threaded explicitly.  random.sample(context_words,
num_skips) is parametrised by a sampler giving, for each group index, the
list of chosen window positions; the theorems hypothesise exactly the
random.sample contract (num_skips distinct elements of context_words). -/

def sgLoop (data : List Int) (skip_window : Nat) (sample : Nat → List Nat) :
    Nat → Nat → List Int → Nat → List (Int × Int) × Nat
  | 0, _, _, di => ([], di)
  | rem + 1, g, buffer, di =>
    let span := 2 * skip_window + 1
    let chunk := (sample g).map
      (fun cw => (buffer.getD skip_window 0, buffer.getD cw 0))
    let step : List Int × Nat :=
      if di = data.length then (data.take span, span)
      else ((buffer ++ [data.getD di 0]).drop (buffer.length + 1 - span), di + 1)
    let r := sgLoop data skip_window sample rem (g + 1) step.1 step.2
    (chunk ++ r.1, r.2)

/-- next_batch: returns (batch, labels, new data_index).  The i-th group
of num_skips batch entries is the buffer's center word; the labels are
the sampled context words.  This models the body after the assert at the
top of the source function (word2vec.py:303); the assert itself is
modelled by next_batch_checked below, and its two conditions are the
hypotheses of the C3 theorem. -/
def next_batch (data : List Int) (batch_size num_skips skip_window : Nat)
    (sample : Nat → List Nat) (data_index : Nat) :
    List Int × List Int × Nat :=
  let span := 2 * skip_window + 1
  let di0 := if data.length < data_index + span then 0 else data_index
  let buffer := (data.drop di0).take span
  let r := sgLoop data skip_window sample (batch_size / num_skips) 0 buffer (di0 + span)
  (r.1.map Prod.fst, r.1.map Prod.snd, (r.2 + data.length - span) % data.length)

/-- The assert at the top of next_batch (word2vec.py:303):
assert batch_size % num_skips == 0 and num_skips <= 2 * skip_window.
A failing assert raises AssertionError before any batch is built; on
success the call proceeds to the body modelled by next_batch. -/
def next_batch_checked (data : List Int) (batch_size num_skips skip_window : Nat)
    (sample : Nat → List Nat) (data_index : Nat) :
    Except String (List Int × List Int × Nat) :=
  if batch_size % num_skips = 0 ∧ num_skips ≤ 2 * skip_window then
    Except.ok (next_batch data batch_size num_skips skip_window sample data_index)
  else Except.error "AssertionError"

/-! ### SkipGramWord2Vec.next_batch_from_list_of_lists (word2vec.py 347-384)

self.current_sentence is incremented BEFORE it is used to index
self.data; the walk index that is out of range raises IndexError, which
the embedding surfaces as an Except.error.  Each iteration calls
next_batch through its assert (next_batch_checked), so a failing assert
surfaces as AssertionError, exactly as in the source. -/

def sgLolLoop (data : List (List Int)) (num_sentences num_skips skip_window : Nat)
    (sample : Nat → List Nat) :
    Nat → Nat → Nat → List Int → List Int →
    Except String (List Int × List Int × Nat × Nat)
  | 0, cs, di, batch, labels => Except.ok (batch, labels, cs, di)
  | wc + 1, cs, di, batch, labels =>
    let cs1 := cs + 1
    if cs1 < data.length then
      let sentence := data.getD cs1 []
      let span := 2 * skip_window + 1
      let batch_count := sentence.length - span + 1
      match next_batch_checked sentence batch_count num_skips skip_window sample di with
      | Except.error e => Except.error e
      | Except.ok r =>
        let cs2 := if cs1 = num_sentences then 0 else cs1
        sgLolLoop data num_sentences num_skips skip_window sample wc cs2 r.2.2
          (batch ++ r.1) (labels ++ r.2.1)
    else Except.error "IndexError"

/-- next_batch_from_list_of_lists: walk_count iterations of the loop,
starting from empty batch and label arrays; returns the batch, the
labels, and the final current_sentence and data_index. -/
def next_batch_from_list_of_lists (data : List (List Int))
    (num_sentences num_skips skip_window : Nat) (sample : Nat → List Nat)
    (walk_count current_sentence data_index : Nat) :
    Except String (List Int × List Int × Nat × Nat) :=
  sgLolLoop data num_sentences num_skips skip_window sample
    walk_count current_sentence data_index [] []

/-! ### ContinuousBagOfWordsWord2Vec.generate_batch_cbow (word2vec.py 641-685) -/

/-- The buffer-filling loop: span appends of data[self.data_index] with
self.data_index advancing cyclically. -/
def cbowFill (data : List Int) : Nat → Nat → List Int × Nat
  | di, 0 => ([], di)
  | di, k + 1 =>
    let rest := cbowFill data ((di + 1) % data.length) k
    (data.getD di 0 :: rest.1, rest.2)

/-- One batch row: the buffer entries at positions j ≠ span // 2, in
order (the center word is skipped). -/
def cbowRow (buffer : List Int) (span : Nat) : List Int :=
  ((List.range span).filter (fun j => j ≠ span / 2)).map (fun j => buffer.getD j 0)

/-- The batch loop: each iteration emits a row and the label
buffer[window_size], then slides the window by appending
data[self.data_index]. -/
def cbowBatchLoop (data : List Int) (window_size : Nat) :
    Nat → List Int → Nat → List (List Int) × List Int × Nat
  | 0, _, di => ([], [], di)
  | i + 1, buffer, di =>
    let span := 2 * window_size + 1
    let row := cbowRow buffer span
    let lab := buffer.getD window_size 0
    let buffer1 := (buffer ++ [data.getD di 0]).drop (buffer.length + 1 - span)
    let r := cbowBatchLoop data window_size i buffer1 ((di + 1) % data.length)
    (row :: r.1, lab :: r.2.1, r.2.2)

/-- generate_batch_cbow: returns (batch rows, labels, new data_index). -/
def generate_batch_cbow (data : List Int) (batch_size window_size : Nat)
    (data_index : Nat) : List (List Int) × List Int × Nat :=
  let span := 2 * window_size + 1
  let f := cbowFill data data_index span
  cbowBatchLoop data window_size batch_size f.1 f.2

/-- The cyclic window of length span starting at position s of data:
the description the CBOW batch rows are verified against. -/
def cbowWindow (data : List Int) (span s : Nat) : List Int :=
  (List.range span).map (fun j => data.getD ((s + j) % data.length) 0)

/-! ## General list lemmas used by several proofs -/

theorem getD_range_map {β : Type} (f : Nat → β) (m i : Nat) (d : β) :
    ((List.range m).map f).getD i d = if i < m then f i else d := by
  by_cases h : i < m
  · rw [List.getD_eq_getElem?_getD, List.getElem?_map, List.getElem?_range h]
    simp [h]
  · have hlen : ((List.range m).map f).length ≤ i := by
      simpa using Nat.le_of_not_lt h
    rw [List.getD_eq_getElem?_getD, List.getElem?_eq_none hlen]
    simp [h]

theorem getD_slice {α : Type} (l : List α) (p k j : Nat) (d : α) (hj : j < k)
    (hpk : p + k ≤ l.length) :
    ((l.drop p).take k).getD j d = l.getD (p + j) d := by
  rw [List.getD_eq_getElem?_getD, List.getD_eq_getElem?_getD, List.getElem?_take]
  simp [hj, List.getElem?_drop]

theorem slice_shift {α : Type} (l : List α) (p k : Nat) (d : α) (hpk : p + k < l.length) :
    ((l.drop p).take k ++ [l.getD (p + k) d]).drop (((l.drop p).take k).length + 1 - k) =
      (l.drop (p + 1)).take k := by
  have hlen : ((l.drop p).take k).length = k := by
    simp only [List.length_take, List.length_drop]
    omega
  have hget : (l.drop p)[k]? = some (l.getD (p + k) d) := by
    rw [List.getElem?_drop, List.getD_eq_getElem (l := l) (d := d) hpk,
      List.getElem?_eq_getElem hpk]
  have happ : (l.drop p).take k ++ [l.getD (p + k) d] = (l.drop p).take (k + 1) := by
    rw [List.take_succ, hget]
    rfl
  rw [happ, hlen]
  have h1 : k + 1 - k = 1 := by omega
  rw [h1, List.drop_take, List.drop_drop]
  norm_num

theorem flatten_length_uniform {β : Type} (m : Nat) (chunks : List (List β))
    (h : ∀ c ∈ chunks, c.length = m) :
    chunks.flatten.length = chunks.length * m := by
  induction chunks with
  | nil => simp
  | cons c cs ih =>
      have hc : c.length = m := h c (by simp)
      have ihh := ih (fun x hx => h x (by simp [hx]))
      simp only [List.flatten_cons, List.length_append, hc, ihh, List.length_cons]
      ring

theorem flatten_slice_uniform {β : Type} (m : Nat) :
    ∀ (chunks : List (List β)) (g : Nat), (∀ c ∈ chunks, c.length = m) →
      g < chunks.length →
      (chunks.flatten.drop (g * m)).take m = chunks.getD g [] := by
  intro chunks
  induction chunks with
  | nil => intro g _ hg; simp at hg
  | cons c cs ih =>
      intro g h hg
      have hc : c.length = m := h c (by simp)
      cases g with
      | zero =>
          simp only [Nat.zero_mul, List.drop_zero, List.flatten_cons, List.getD_cons_zero]
          exact List.take_left' hc
      | succ g =>
          have hmul : (g + 1) * m = c.length + g * m := by rw [hc]; ring
          rw [List.getD_cons_succ, hmul, List.flatten_cons, ← List.drop_drop,
            List.drop_left]
          exact ih g (fun x hx => h x (by simp [hx])) (by simpa using hg)

theorem map_constant {β γ : Type} (l : List β) (c : γ) :
    l.map (fun _ => c) = List.replicate l.length c := by
  induction l with
  | nil => simp
  | cons x xs ih => simp [ih, List.replicate]

/-! ## C10: vocabulary size and the num_sampled adjustment -/

theorem adjust_num_sampled_le (num_sampled : ℚ) (v : Nat) :
    adjust_num_sampled num_sampled v ≤ (v : ℚ) := by
  unfold adjust_num_sampled
  by_cases h : num_sampled > (v : ℚ)
  · simp only [h, if_true]
    have hv : (0 : ℚ) ≤ (v : ℚ) := Nat.cast_nonneg v
    linarith
  · simp only [h, if_false]
    exact le_of_not_lt h

/-- C10: after construction on non-empty data, vocabulary_size equals
min(max_vocabulary_size, number of distinct tokens in the (flattened)
data + 1), and the adjusted num_sampled never exceeds vocabulary_size
(the constructor replaces num_sampled by vocabulary_size/2 whenever it
exceeds vocabulary_size). -/
theorem claim_c10_vocabulary_size (dataW : List (List Int)) (dataF : List Int)
    (max_vocabulary_size : Nat) (num_sampled : ℚ)
    (hW : 0 < dataW.length) (hF : 0 < dataF.length) :
    calculate_vocabulary_size dataW max_vocabulary_size =
        min max_vocabulary_size (dataW.flatten.toFinset.card + 1) ∧
    calculate_vocabulary_size_flat dataF max_vocabulary_size =
        min max_vocabulary_size (dataF.toFinset.card + 1) ∧
    adjust_num_sampled num_sampled (calculate_vocabulary_size dataW max_vocabulary_size) ≤
        (calculate_vocabulary_size dataW max_vocabulary_size : ℚ) ∧
    adjust_num_sampled num_sampled (calculate_vocabulary_size_flat dataF max_vocabulary_size) ≤
        (calculate_vocabulary_size_flat dataF max_vocabulary_size : ℚ) := by
  refine ⟨?_, ?_, adjust_num_sampled_le _ _, adjust_num_sampled_le _ _⟩
  · simp [calculate_vocabulary_size, List.card_toFinset]
  · simp [calculate_vocabulary_size_flat, List.card_toFinset]

theorem claim_c10_witness :
    0 < ([[1, 2], [2, 3]] : List (List Int)).length ∧
    0 < ([5, 6] : List Int).length ∧
    (calculate_vocabulary_size [[1, 2], [2, 3]] 50000 =
        min 50000 (([[1, 2], [2, 3]] : List (List Int)).flatten.toFinset.card + 1) ∧
      calculate_vocabulary_size_flat [5, 6] 50000 =
        min 50000 (([5, 6] : List Int).toFinset.card + 1) ∧
      adjust_num_sampled 7 (calculate_vocabulary_size [[1, 2], [2, 3]] 50000) ≤
        (calculate_vocabulary_size [[1, 2], [2, 3]] 50000 : ℚ) ∧
      adjust_num_sampled 7 (calculate_vocabulary_size_flat [5, 6] 50000) ≤
        (calculate_vocabulary_size_flat [5, 6] 50000 : ℚ)) :=
  ⟨by decide, by decide,
    claim_c10_vocabulary_size [[1, 2], [2, 3]] [5, 6] 50000 7 (by decide) (by decide)⟩

/-! ## C4: ContinuousBagOfWordsWord2Vec.generate_batch_cbow -/

theorem cbowWindow_length (data : List Int) (span s : Nat) :
    (cbowWindow data span s).length = span := by
  simp [cbowWindow]

theorem cbowWindow_getD (data : List Int) (span s j : Nat) (hj : j < span) :
    (cbowWindow data span s).getD j 0 = data.getD ((s + j) % data.length) 0 := by
  unfold cbowWindow
  rw [getD_range_map]
  simp [hj]

theorem cbowWindow_shift (data : List Int) (w s : Nat) (hn : 0 < data.length) :
    (cbowWindow data (2 * w + 1) s ++
        [data.getD ((s + (2 * w + 1)) % data.length) 0]).drop
        ((cbowWindow data (2 * w + 1) s).length + 1 - (2 * w + 1)) =
      cbowWindow data (2 * w + 1) (s + 1) := by
  rw [cbowWindow_length]
  have h1 : 2 * w + 1 + 1 - (2 * w + 1) = 1 := by omega
  rw [h1]
  apply List.ext_getElem?
  intro i
  rw [List.getElem?_drop, List.getElem?_append]
  by_cases hi2 : 1 + i < (cbowWindow data (2 * w + 1) s).length
  · rw [if_pos hi2]
    rw [cbowWindow_length] at hi2
    have hi : i < 2 * w + 1 := by omega
    unfold cbowWindow
    rw [List.getElem?_map, List.getElem?_map, List.getElem?_range hi2,
      List.getElem?_range hi]
    simp only [Option.map_some']
    have harg : s + (1 + i) = s + 1 + i := by omega
    rw [harg]
  · rw [if_neg hi2]
    rw [cbowWindow_length] at hi2
    by_cases hi : i < 2 * w + 1
    · have h4 : 1 + i - (cbowWindow data (2 * w + 1) s).length = 0 := by
        rw [cbowWindow_length]; omega
      rw [h4]
      simp only [List.getElem?_cons_zero]
      unfold cbowWindow
      rw [List.getElem?_map, List.getElem?_range hi]
      simp only [Option.map_some']
      have harg : s + 1 + i = s + (2 * w + 1) := by omega
      rw [harg]
    · have h5 : ([data.getD ((s + (2 * w + 1)) % data.length) 0] : List Int).length ≤
          1 + i - (cbowWindow data (2 * w + 1) s).length := by
        rw [cbowWindow_length]
        simp only [List.length_singleton]
        omega
      have h6 : (cbowWindow data (2 * w + 1) (s + 1)).length ≤ i := by
        rw [cbowWindow_length]; omega
      rw [List.getElem?_eq_none h5, List.getElem?_eq_none h6]

theorem cbowFill_spec (data : List Int) (hn : 0 < data.length) :
    ∀ (k di : Nat), di < data.length →
      cbowFill data di k =
        ((List.range k).map (fun j => data.getD ((di + j) % data.length) 0),
         (di + k) % data.length) := by
  intro k
  induction k with
  | zero =>
      intro di hdi
      simp [cbowFill, Nat.mod_eq_of_lt hdi]
  | succ k ih =>
      intro di hdi
      simp only [cbowFill]
      rw [ih ((di + 1) % data.length) (Nat.mod_lt _ hn)]
      refine Prod.ext ?_ ?_
      · simp only [List.range_succ_eq_map, List.map_cons, List.map_map]
        congr 1
        · rw [Nat.add_zero, Nat.mod_eq_of_lt hdi]
        · apply List.map_congr_left
          intro a _
          simp only [Function.comp_apply, Nat.succ_eq_add_one]
          rw [Nat.mod_add_mod]
          have harg : di + 1 + a = di + (a + 1) := by omega
          rw [harg]
      · simp only
        rw [Nat.mod_add_mod]
        have harg : di + 1 + k = di + (k + 1) := by omega
        rw [harg]

theorem cbowBatchLoop_spec (data : List Int) (w : Nat) (hn : 0 < data.length) :
    ∀ (k s : Nat),
      cbowBatchLoop data w k (cbowWindow data (2 * w + 1) s)
          ((s + (2 * w + 1)) % data.length) =
        ((List.range k).map (fun i => cbowRow (cbowWindow data (2 * w + 1) (s + i)) (2 * w + 1)),
         (List.range k).map (fun i => data.getD ((s + i + w) % data.length) 0),
         (s + (2 * w + 1) + k) % data.length) := by
  intro k
  induction k with
  | zero =>
      intro s
      simp [cbowBatchLoop]
  | succ k ih =>
      intro s
      simp only [cbowBatchLoop]
      rw [cbowWindow_shift data w s hn]
      have hstep : ((s + (2 * w + 1)) % data.length + 1) % data.length =
          (s + 1 + (2 * w + 1)) % data.length := by
        rw [Nat.mod_add_mod]
        congr 1
        omega
      rw [hstep, ih (s + 1)]
      refine Prod.ext ?_ (Prod.ext ?_ ?_)
      · simp only [List.range_succ_eq_map, List.map_cons, List.map_map]
        refine congrArg₂ List.cons ?_ ?_
        · show cbowRow (cbowWindow data (2 * w + 1) s) (2 * w + 1) =
              cbowRow (cbowWindow data (2 * w + 1) (s + 0)) (2 * w + 1)
          norm_num
        · apply List.map_congr_left
          intro a _
          simp only [Function.comp_apply, Nat.succ_eq_add_one]
          have harg : s + 1 + a = s + (a + 1) := by omega
          rw [harg]
      · simp only [List.range_succ_eq_map, List.map_cons, List.map_map]
        refine congrArg₂ List.cons ?_ ?_
        · show (cbowWindow data (2 * w + 1) s).getD w 0 =
              data.getD ((s + 0 + w) % data.length) 0
          rw [cbowWindow_getD data (2 * w + 1) s w (by omega)]
          norm_num
        · apply List.map_congr_left
          intro a _
          simp only [Function.comp_apply, Nat.succ_eq_add_one]
          have harg : s + (a + 1) + w = s + 1 + a + w := by omega
          rw [harg]
      · simp only
        have harg : s + (2 * w + 1) + (k + 1) = s + 1 + (2 * w + 1) + k := by omega
        rw [harg]

theorem range_filter_ne_center_length (w : Nat) :
    ((List.range (2 * w + 1)).filter (fun j => j ≠ w)).length = 2 * w := by
  have hcount : List.count w (List.range (2 * w + 1)) = 1 :=
    List.count_eq_one_of_mem (List.nodup_range _) (List.mem_range.mpr (by omega))
  have hcount2 : (List.range (2 * w + 1)).countP (fun j => decide (j = w)) = 1 := by
    have : List.count w (List.range (2 * w + 1)) =
        (List.range (2 * w + 1)).countP (fun j => decide (j = w)) := by
      simp only [List.count]
      exact List.countP_congr (fun x _ => by simp)
    omega
  have hsplit := List.length_eq_countP_add_countP (fun j => decide (j = w))
    (List.range (2 * w + 1))
  have hne : (List.range (2 * w + 1)).countP (fun j => decide ¬(decide (j = w) = true)) =
      (List.range (2 * w + 1)).countP (fun j => j ≠ w) :=
    List.countP_congr (fun x _ => by simp)
  rw [← List.countP_eq_length_filter]
  simp only [List.length_range] at hsplit
  omega

/-- C4 (amended): generate_batch_cbow returns batch_size rows of width
2*window_size; reading data cyclically, row i is the window around
position d+window_size+i (mod len(data)) with the center excluded,
labels[i] is that center word, and on return data_index has advanced by
span + batch_size positions (mod len(data)) — not span + batch_size - 1
as originally claimed. -/
theorem claim_c4_generate_batch_cbow (data : List Int) (batch_size window_size d : Nat)
    (hn : 0 < data.length) (hd : d < data.length) :
    (generate_batch_cbow data batch_size window_size d).1.length = batch_size ∧
    (generate_batch_cbow data batch_size window_size d).2.1.length = batch_size ∧
    (∀ i, i < batch_size →
      (generate_batch_cbow data batch_size window_size d).1.getD i [] =
        ((List.range (2 * window_size + 1)).filter (fun j => j ≠ window_size)).map
          (fun j => data.getD ((d + i + j) % data.length) 0)) ∧
    (∀ i, i < batch_size →
      ((generate_batch_cbow data batch_size window_size d).1.getD i []).length =
        2 * window_size) ∧
    (∀ i, i < batch_size →
      (generate_batch_cbow data batch_size window_size d).2.1.getD i 0 =
        data.getD ((d + i + window_size) % data.length) 0) ∧
    (generate_batch_cbow data batch_size window_size d).2.2 =
      (d + (2 * window_size + 1) + batch_size) % data.length := by
  have hfill := cbowFill_spec data hn (2 * window_size + 1) d hd
  have hrun : generate_batch_cbow data batch_size window_size d =
      cbowBatchLoop data window_size batch_size
        (cbowWindow data (2 * window_size + 1) d)
        ((d + (2 * window_size + 1)) % data.length) := by
    show cbowBatchLoop data window_size batch_size
        (cbowFill data d (2 * window_size + 1)).1
        (cbowFill data d (2 * window_size + 1)).2 = _
    rw [hfill]
    rfl
  rw [hrun, cbowBatchLoop_spec data window_size hn batch_size d]
  have hrow : ∀ i, i < batch_size →
      cbowRow (cbowWindow data (2 * window_size + 1) (d + i)) (2 * window_size + 1) =
        ((List.range (2 * window_size + 1)).filter (fun j => j ≠ window_size)).map
          (fun j => data.getD ((d + i + j) % data.length) 0) := by
    intro i hi
    unfold cbowRow
    have hc : (2 * window_size + 1) / 2 = window_size := by omega
    rw [hc]
    apply List.map_congr_left
    intro j hj
    have hjr : j < 2 * window_size + 1 := List.mem_range.mp (List.mem_filter.mp hj).1
    rw [cbowWindow_getD data (2 * window_size + 1) (d + i) j hjr]
  refine ⟨by simp, by simp, ?_, ?_, ?_, by simp⟩
  · intro i hi
    rw [getD_range_map]
    simp only [hi, if_true]
    exact hrow i hi
  · intro i hi
    rw [getD_range_map]
    simp only [hi, if_true]
    rw [hrow i hi, List.length_map, range_filter_ne_center_length]
  · intro i hi
    rw [getD_range_map]
    simp [hi]

/-- C4 counterexample: for data of length 5, window_size 1 (span 3),
batch_size 1, starting data_index 0, the returned data_index is
(0 + 3 + 1) % 5 = 4, not the (0 + 3 + 1 - 1) % 5 = 3 positions the claim
predicts. -/
theorem claim_c4_counterexample :
    ¬ ((generate_batch_cbow [0, 1, 2, 3, 4] 1 1 0).2.2 =
        (0 + (2 * 1 + 1) + 1 - 1) % 5) := by
  decide

theorem claim_c4_witness :
    0 < ([10, 20, 30, 40, 50] : List Int).length ∧
    0 < ([10, 20, 30, 40, 50] : List Int).length ∧
    ((generate_batch_cbow [10, 20, 30, 40, 50] 2 1 0).1.length = 2 ∧
     (generate_batch_cbow [10, 20, 30, 40, 50] 2 1 0).2.1.length = 2 ∧
     (∀ i, i < 2 →
       (generate_batch_cbow [10, 20, 30, 40, 50] 2 1 0).1.getD i [] =
         ((List.range (2 * 1 + 1)).filter (fun j => j ≠ 1)).map
           (fun j => ([10, 20, 30, 40, 50] : List Int).getD
             ((0 + i + j) % ([10, 20, 30, 40, 50] : List Int).length) 0)) ∧
     (∀ i, i < 2 →
       ((generate_batch_cbow [10, 20, 30, 40, 50] 2 1 0).1.getD i []).length = 2 * 1) ∧
     (∀ i, i < 2 →
       (generate_batch_cbow [10, 20, 30, 40, 50] 2 1 0).2.1.getD i 0 =
         ([10, 20, 30, 40, 50] : List Int).getD
           ((0 + i + 1) % ([10, 20, 30, 40, 50] : List Int).length) 0) ∧
     (generate_batch_cbow [10, 20, 30, 40, 50] 2 1 0).2.2 =
       (0 + (2 * 1 + 1) + 2) % ([10, 20, 30, 40, 50] : List Int).length) :=
  ⟨by decide, by decide,
    claim_c4_generate_batch_cbow [10, 20, 30, 40, 50] 2 1 0 (by decide) (by decide)⟩

/-! ## C3: SkipGramWord2Vec.next_batch -/

theorem sgLoop_spec (data : List Int) (sw : Nat) (sample : Nat → List Nat)
    (hspan : 2 * sw + 1 ≤ data.length) :
    ∀ (rem g di : Nat), 2 * sw + 1 ≤ di → di ≤ data.length →
      (∀ k, k < rem → ∀ cw ∈ sample (g + k), cw < 2 * sw + 1) →
      ∃ chunks : List (List (Int × Int)),
        (sgLoop data sw sample rem g
            ((data.drop (di - (2 * sw + 1))).take (2 * sw + 1)) di).1 = chunks.flatten ∧
        chunks.length = rem ∧
        ∀ k, k < rem → ∃ p, p + (2 * sw + 1) ≤ data.length ∧
          chunks.getD k [] = (sample (g + k)).map
            (fun cw => (data.getD (p + sw) 0, data.getD (p + cw) 0)) := by
  intro rem
  induction rem with
  | zero =>
      intro g di h1 h2 h3
      exact ⟨[], by simp [sgLoop], rfl, fun k hk => absurd hk (by omega)⟩
  | succ rem ih =>
      intro g di h1 h2 h3
      have hchunk : ((data.drop (di - (2 * sw + 1))).take (2 * sw + 1)).getD sw 0 =
          data.getD (di - (2 * sw + 1) + sw) 0 :=
        getD_slice data (di - (2 * sw + 1)) (2 * sw + 1) sw 0 (by omega) (by omega)
      by_cases hdi : di = data.length
      · -- the buffer is reset to data[0:span] and data_index to span
        have h3' : ∀ k, k < rem → ∀ cw ∈ sample (g + 1 + k), cw < 2 * sw + 1 := by
          intro k hk cw hcw
          have he : g + 1 + k = g + (k + 1) := by omega
          rw [he] at hcw
          exact h3 (k + 1) (by omega) cw hcw
        obtain ⟨chunks, hflat, hlenc, hspec⟩ :=
          ih (g + 1) (2 * sw + 1) (by omega) hspan h3'
        rw [Nat.sub_self, List.drop_zero] at hflat
        refine ⟨((sample g).map
            (fun cw => (data.getD (di - (2 * sw + 1) + sw) 0,
                        data.getD (di - (2 * sw + 1) + cw) 0))) :: chunks, ?_, ?_, ?_⟩
        · simp only [sgLoop, List.flatten_cons]
          rw [if_pos hdi]
          refine congrArg₂ (· ++ ·) ?_ ?_
          swap
          · exact hflat
          apply List.map_congr_left
          intro cw hcw
          have hcw' : cw < 2 * sw + 1 := h3 0 (by omega) cw (by simpa using hcw)
          rw [hchunk, getD_slice data (di - (2 * sw + 1)) (2 * sw + 1) cw 0 hcw' (by omega)]
        · simpa using hlenc
        · intro k hk
          cases k with
          | zero =>
              refine ⟨di - (2 * sw + 1), by omega, ?_⟩
              simp
          | succ k =>
              obtain ⟨p, hp, hc⟩ := hspec k (by omega)
              refine ⟨p, hp, ?_⟩
              rw [List.getD_cons_succ, hc]
              have he : g + 1 + k = g + (k + 1) := by omega
              rw [he]
      · -- the window slides one position to the right
        have hlt : di < data.length := by omega
        have h3' : ∀ k, k < rem → ∀ cw ∈ sample (g + 1 + k), cw < 2 * sw + 1 := by
          intro k hk cw hcw
          have he : g + 1 + k = g + (k + 1) := by omega
          rw [he] at hcw
          exact h3 (k + 1) (by omega) cw hcw
        obtain ⟨chunks, hflat, hlenc, hspec⟩ := ih (g + 1) (di + 1) (by omega) (by omega) h3'
        have hshift : ((data.drop (di - (2 * sw + 1))).take (2 * sw + 1) ++
              [data.getD di 0]).drop
              (((data.drop (di - (2 * sw + 1))).take (2 * sw + 1)).length + 1 -
                (2 * sw + 1)) =
            (data.drop (di + 1 - (2 * sw + 1))).take (2 * sw + 1) := by
          have hx : data.getD di 0 = data.getD (di - (2 * sw + 1) + (2 * sw + 1)) 0 := by
            have he : di - (2 * sw + 1) + (2 * sw + 1) = di := by omega
            rw [he]
          rw [hx, slice_shift data (di - (2 * sw + 1)) (2 * sw + 1) 0 (by omega)]
          have he : di - (2 * sw + 1) + 1 = di + 1 - (2 * sw + 1) := by omega
          rw [he]
        refine ⟨((sample g).map
            (fun cw => (data.getD (di - (2 * sw + 1) + sw) 0,
                        data.getD (di - (2 * sw + 1) + cw) 0))) :: chunks, ?_, ?_, ?_⟩
        · simp only [sgLoop, List.flatten_cons]
          rw [if_neg hdi, hshift]
          refine congrArg₂ (· ++ ·) ?_ ?_
          swap
          · exact hflat
          apply List.map_congr_left
          intro cw hcw
          have hcw' : cw < 2 * sw + 1 := h3 0 (by omega) cw (by simpa using hcw)
          rw [hchunk, getD_slice data (di - (2 * sw + 1)) (2 * sw + 1) cw 0 hcw' (by omega)]
        · simpa using hlenc
        · intro k hk
          cases k with
          | zero =>
              refine ⟨di - (2 * sw + 1), by omega, ?_⟩
              simp
          | succ k =>
              obtain ⟨p, hp, hc⟩ := hspec k (by omega)
              refine ⟨p, hp, ?_⟩
              rw [List.getD_cons_succ, hc]
              have he : g + 1 + k = g + (k + 1) := by omega
              rw [he]

/-- C3: next_batch returns a batch of batch_size entries and batch_size
labels; the batch consists of batch_size/num_skips groups of num_skips
equal center words, the window around each center is a contiguous span
of data (restarting at the front of data when the end is reached), and
each group's labels are num_skips distinct in-window positions, never
the center position, evaluated in data.  The sampler hypothesis is the
contract of random.sample(context_words, num_skips). -/
theorem claim_c3_next_batch (data : List Int) (batch_size num_skips skip_window d : Nat)
    (sample : Nat → List Nat)
    (hlen : 2 * skip_window + 1 ≤ data.length)
    (hdvd : num_skips ∣ batch_size)
    (hns : num_skips ≤ 2 * skip_window)
    (hsample : ∀ i, i < batch_size / num_skips →
      (sample i).length = num_skips ∧ (sample i).Nodup ∧
      ∀ cw ∈ sample i, cw < 2 * skip_window + 1 ∧ cw ≠ skip_window) :
    (next_batch data batch_size num_skips skip_window sample d).1.length = batch_size ∧
    (next_batch data batch_size num_skips skip_window sample d).2.1.length = batch_size ∧
    ∀ g, g < batch_size / num_skips →
      ∃ p : Nat, ∃ js : List Nat, p + (2 * skip_window + 1) ≤ data.length ∧
        js.Nodup ∧ js.length = num_skips ∧
        (∀ j ∈ js, j < 2 * skip_window + 1 ∧ j ≠ skip_window) ∧
        ((next_batch data batch_size num_skips skip_window sample d).1.drop
            (g * num_skips)).take num_skips =
          List.replicate num_skips (data.getD (p + skip_window) 0) ∧
        ((next_batch data batch_size num_skips skip_window sample d).2.1.drop
            (g * num_skips)).take num_skips =
          js.map (fun j => data.getD (p + j) 0) := by
  have hdi0 : 2 * skip_window + 1 ≤
        (if data.length < d + (2 * skip_window + 1) then 0 else d) + (2 * skip_window + 1) ∧
      (if data.length < d + (2 * skip_window + 1) then 0 else d) + (2 * skip_window + 1) ≤
        data.length := by
    by_cases hc : data.length < d + (2 * skip_window + 1)
    · simp only [hc, if_true]
      omega
    · simp only [hc, if_false]
      omega
  have h3 : ∀ k, k < batch_size / num_skips → ∀ cw ∈ sample (0 + k), cw < 2 * skip_window + 1 := by
    intro k hk cw hcw
    rw [Nat.zero_add] at hcw
    exact ((hsample k hk).2.2 cw hcw).1
  obtain ⟨chunks, hflat, hlenc, hspec⟩ :=
    sgLoop_spec data skip_window sample hlen (batch_size / num_skips) 0
      ((if data.length < d + (2 * skip_window + 1) then 0 else d) + (2 * skip_window + 1))
      hdi0.1 hdi0.2 h3
  have hbufeq : (if data.length < d + (2 * skip_window + 1) then 0 else d) +
      (2 * skip_window + 1) - (2 * skip_window + 1) =
      (if data.length < d + (2 * skip_window + 1) then 0 else d) := by omega
  rw [hbufeq] at hflat
  have hrun : (next_batch data batch_size num_skips skip_window sample d).1 =
      (sgLoop data skip_window sample (batch_size / num_skips) 0
        ((data.drop (if data.length < d + (2 * skip_window + 1) then 0 else d)).take
          (2 * skip_window + 1))
        ((if data.length < d + (2 * skip_window + 1) then 0 else d) +
          (2 * skip_window + 1))).1.map Prod.fst := rfl
  have hrun2 : (next_batch data batch_size num_skips skip_window sample d).2.1 =
      (sgLoop data skip_window sample (batch_size / num_skips) 0
        ((data.drop (if data.length < d + (2 * skip_window + 1) then 0 else d)).take
          (2 * skip_window + 1))
        ((if data.length < d + (2 * skip_window + 1) then 0 else d) +
          (2 * skip_window + 1))).1.map Prod.snd := rfl
  have huni : ∀ c ∈ chunks, c.length = num_skips := by
    intro c hc
    obtain ⟨⟨k, hklt⟩, hk⟩ := List.mem_iff_get.mp hc
    have hgd : chunks.getD k [] = c := by
      rw [List.getD_eq_getElem chunks [] hklt]
      simpa using hk
    obtain ⟨p, hp, hform⟩ := hspec k (by omega)
    rw [hgd] at hform
    rw [hform, List.length_map]
    rw [Nat.zero_add]
    exact (hsample k (by omega)).1
  have hflatlen : chunks.flatten.length = batch_size := by
    rw [flatten_length_uniform num_skips chunks huni, hlenc,
      Nat.div_mul_cancel hdvd]
  refine ⟨?_, ?_, ?_⟩
  · rw [hrun, hflat, List.length_map, hflatlen]
  · rw [hrun2, hflat, List.length_map, hflatlen]
  · intro g hg
    obtain ⟨p, hp, hform⟩ := hspec g (by omega)
    rw [Nat.zero_add] at hform
    obtain ⟨hslen, hsnodup, hsmem⟩ := hsample g hg
    refine ⟨p, sample g, hp, hsnodup, hslen, hsmem, ?_, ?_⟩
    · rw [hrun, hflat, List.map_flatten]
      have huni2 : ∀ c ∈ chunks.map (List.map Prod.fst), c.length = num_skips := by
        intro c hc
        obtain ⟨c0, hc0, hc0e⟩ := List.mem_map.mp hc
        rw [← hc0e, List.length_map]
        exact huni c0 hc0
      rw [flatten_slice_uniform num_skips (chunks.map (List.map Prod.fst)) g huni2
        (by rw [List.length_map, hlenc]; exact hg)]
      rw [show ([] : List Int) = List.map Prod.fst ([] : List (Int × Int)) from rfl,
        List.getD_map, hform, List.map_map]
      have : (Prod.fst ∘ fun cw =>
          ((data.getD (p + skip_window) 0 : Int), data.getD (p + cw) 0)) =
          fun _ => (data.getD (p + skip_window) 0 : Int) := rfl
      rw [this, map_constant, hslen]
    · rw [hrun2, hflat, List.map_flatten]
      have huni2 : ∀ c ∈ chunks.map (List.map Prod.snd), c.length = num_skips := by
        intro c hc
        obtain ⟨c0, hc0, hc0e⟩ := List.mem_map.mp hc
        rw [← hc0e, List.length_map]
        exact huni c0 hc0
      rw [flatten_slice_uniform num_skips (chunks.map (List.map Prod.snd)) g huni2
        (by rw [List.length_map, hlenc]; exact hg)]
      rw [show ([] : List Int) = List.map Prod.snd ([] : List (Int × Int)) from rfl,
        List.getD_map, hform, List.map_map]
      rfl

theorem claim_c3_witness :
    2 * 1 + 1 ≤ ([1, 2, 3, 4, 5, 6, 7] : List Int).length ∧
    2 ∣ 4 ∧ 2 ≤ 2 * 1 ∧
    (∀ i, i < 4 / 2 →
      ((fun _ : Nat => [0, 2]) i).length = 2 ∧ ((fun _ : Nat => [0, 2]) i).Nodup ∧
      ∀ cw ∈ (fun _ : Nat => [0, 2]) i, cw < 2 * 1 + 1 ∧ cw ≠ 1) ∧
    ((next_batch [1, 2, 3, 4, 5, 6, 7] 4 2 1 (fun _ => [0, 2]) 0).1.length = 4 ∧
     (next_batch [1, 2, 3, 4, 5, 6, 7] 4 2 1 (fun _ => [0, 2]) 0).2.1.length = 4 ∧
     ∀ g, g < 4 / 2 →
       ∃ p : Nat, ∃ js : List Nat, p + (2 * 1 + 1) ≤ ([1, 2, 3, 4, 5, 6, 7] : List Int).length ∧
         js.Nodup ∧ js.length = 2 ∧
         (∀ j ∈ js, j < 2 * 1 + 1 ∧ j ≠ 1) ∧
         ((next_batch [1, 2, 3, 4, 5, 6, 7] 4 2 1 (fun _ => [0, 2]) 0).1.drop
             (g * 2)).take 2 =
           List.replicate 2 (([1, 2, 3, 4, 5, 6, 7] : List Int).getD (p + 1) 0) ∧
         ((next_batch [1, 2, 3, 4, 5, 6, 7] 4 2 1 (fun _ => [0, 2]) 0).2.1.drop
             (g * 2)).take 2 =
           js.map (fun j => ([1, 2, 3, 4, 5, 6, 7] : List Int).getD (p + j) 0)) :=
  ⟨by decide, by decide, by decide, by decide,
    claim_c3_next_batch [1, 2, 3, 4, 5, 6, 7] 4 2 1 0 (fun _ => [0, 2])
      (by decide) (by decide) (by decide) (by decide)⟩

/-! ## C5: SkipGramWord2Vec.next_batch_from_list_of_lists -/

/-- C5 is violated by the code: current_sentence is incremented before it
is used as an index.  On two walks of length 4 with skip_window 1 and
num_skips 2, each walk has batch_count = 4 - 3 + 1 = 2, so the assert at
the top of next_batch passes (2 % 2 = 0 and 2 <= 2).  A single call with
walk_count = 2 starting at current_sentence = 0 then ingests data[1]
without error and next reads data[2], which is out of range for the
two-element walk list (num_sentences = 2) and raises IndexError; walk 0
is never ingested and the reset to 0 is never reached. -/
theorem claim_c5_index_error :
    next_batch_from_list_of_lists [[1, 2, 3, 4], [5, 6, 7, 8]] 2 2 1
        (fun _ => [0, 2]) 2 0 0 =
      Except.error "IndexError" := by
  rfl

/-! ## C2: CSFGraph.__init__ entry checks -/

/-- C2 is violated by the code: the None and non-str arguments do raise
the documented TypeErrors and a missing path raises the documented
ValueError, but for every existing file — here the well-formed
'subject object' header file edges.tsv — parse_header raises
UnboundLocalError (its local dict header_info is annotated but never
created), so the constructor never returns a graph. -/
theorem claim_c2_init_behavior :
    (CSFGraph_init PyArg.pyNone
        (fun p => if p = "edges.tsv" then some ["subject\tobject", "a\tb"] else none) 1 =
      Except.error (PyError.typeError "The filepath attribute cannot be empty.")) ∧
    (CSFGraph_init PyArg.pyOther
        (fun p => if p = "edges.tsv" then some ["subject\tobject", "a\tb"] else none) 1 =
      Except.error (PyError.typeError "The filepath attribute must be type str")) ∧
    (CSFGraph_init (PyArg.pyStr "missing.tsv")
        (fun p => if p = "edges.tsv" then some ["subject\tobject", "a\tb"] else none) 1 =
      Except.error (PyError.valueError "Could not find graph file missing.tsv")) ∧
    (CSFGraph_init (PyArg.pyStr "edges.tsv")
        (fun p => if p = "edges.tsv" then some ["subject\tobject", "a\tb"] else none) 1 =
      Except.error PyError.unboundLocalError) :=
  ⟨rfl, rfl, rfl, rfl⟩

/-! ## Order facts for the lexicographic comparisons -/

theorem charToNat_inj {a b : Char} (h : a.toNat = b.toNat) : a = b := by
  apply Char.ext
  apply UInt32.ext
  simpa [Char.toNat, UInt32.toNat] using h

theorem charListLe_refl : ∀ l : List Char, charListLe l l = true
  | [] => rfl
  | a :: as => by
      simp only [charListLe]
      rw [if_neg (by omega), if_neg (by omega)]
      exact charListLe_refl as

theorem charListLe_total : ∀ l m : List Char,
    charListLe l m = true ∨ charListLe m l = true
  | [], _ => Or.inl rfl
  | _ :: _, [] => Or.inr rfl
  | a :: as, b :: bs => by
      simp only [charListLe]
      rcases Nat.lt_trichotomy a.toNat b.toNat with h | h | h
      · left
        rw [if_pos h]
      · rw [if_neg (by omega), if_neg (by omega), if_neg (by omega), if_neg (by omega)]
        exact charListLe_total as bs
      · right
        rw [if_pos h]

theorem charListLe_trans : ∀ l m k : List Char,
    charListLe l m = true → charListLe m k = true → charListLe l k = true
  | [], _, _, _, _ => rfl
  | _ :: _, [], _, h1, _ => by simp [charListLe] at h1
  | _ :: _, _ :: _, [], _, h2 => by simp [charListLe] at h2
  | a :: as, b :: bs, c :: cs, h1, h2 => by
      simp only [charListLe] at h1 h2 ⊢
      by_cases hab : a.toNat < b.toNat
      · by_cases hbc : b.toNat < c.toNat
        · rw [if_pos (by omega)]
        · rw [if_neg hbc] at h2
          by_cases hcb : c.toNat < b.toNat
          · rw [if_pos hcb] at h2
            simp at h2
          · rw [if_pos (by omega)]
      · rw [if_neg hab] at h1
        by_cases hba : b.toNat < a.toNat
        · rw [if_pos hba] at h1
          simp at h1
        · rw [if_neg hba] at h1
          by_cases hbc : b.toNat < c.toNat
          · rw [if_pos (by omega)]
          · rw [if_neg hbc] at h2
            by_cases hcb : c.toNat < b.toNat
            · rw [if_pos hcb] at h2
              simp at h2
            · rw [if_neg hcb] at h2
              rw [if_neg (by omega), if_neg (by omega)]
              exact charListLe_trans as bs cs h1 h2

theorem charListLe_antisymm : ∀ l m : List Char,
    charListLe l m = true → charListLe m l = true → l = m
  | [], [], _, _ => rfl
  | [], _ :: _, _, h2 => by simp [charListLe] at h2
  | _ :: _, [], h1, _ => by simp [charListLe] at h1
  | a :: as, b :: bs, h1, h2 => by
      simp only [charListLe] at h1 h2
      by_cases hab : a.toNat < b.toNat
      · rw [if_neg (by omega), if_pos hab] at h2
        simp at h2
      · rw [if_neg hab] at h1
        by_cases hba : b.toNat < a.toNat
        · rw [if_pos hba] at h1
          simp at h1
        · rw [if_neg hba] at h1
          rw [if_neg (by omega), if_neg (by omega)] at h2
          have hx : a = b := charToNat_inj (by omega)
          rw [hx, charListLe_antisymm as bs h1 h2]

theorem charListLt_iff : ∀ l m : List Char,
    charListLt l m = true ↔ (charListLe l m = true ∧ l ≠ m)
  | [], [] => by simp [charListLt, charListLe]
  | [], _ :: _ => by simp [charListLt, charListLe]
  | _ :: _, [] => by simp [charListLt, charListLe]
  | a :: as, b :: bs => by
      simp only [charListLt, charListLe]
      by_cases hab : a.toNat < b.toNat
      · rw [if_pos hab, if_pos hab]
        constructor
        · intro _
          exact ⟨rfl, fun hc => by cases hc; omega⟩
        · intro _
          rfl
      · by_cases hba : b.toNat < a.toNat
        · rw [if_neg hab, if_pos hba, if_neg hab, if_pos hba]
          simp
        · rw [if_neg hab, if_neg hba, if_neg hab, if_neg hba]
          have hx : a = b := charToNat_inj (by omega)
          subst hx
          rw [charListLt_iff as bs]
          simp

theorem strLe_refl (a : String) : strLe a a = true := charListLe_refl a.data

theorem strLe_total (a b : String) : strLe a b = true ∨ strLe b a = true :=
  charListLe_total a.data b.data

theorem strLe_trans {a b c : String} (h1 : strLe a b = true) (h2 : strLe b c = true) :
    strLe a c = true :=
  charListLe_trans a.data b.data c.data h1 h2

theorem strLe_antisymm {a b : String} (h1 : strLe a b = true) (h2 : strLe b a = true) :
    a = b :=
  String.ext (charListLe_antisymm a.data b.data h1 h2)

theorem strLt_iff (a b : String) : strLt a b = true ↔ (strLe a b = true ∧ a ≠ b) := by
  unfold strLt strLe
  rw [charListLt_iff]
  constructor
  · rintro ⟨h1, h2⟩
    exact ⟨h1, fun hc => h2 (by rw [hc])⟩
  · rintro ⟨h1, h2⟩
    exact ⟨h1, fun hc => h2 (String.ext hc)⟩

theorem strLt_of_le_ne {a b : String} (h1 : strLe a b = true) (h2 : a ≠ b) :
    strLt a b = true :=
  (strLt_iff a b).mpr ⟨h1, h2⟩

theorem strLe_of_lt {a b : String} (h : strLt a b = true) : strLe a b = true :=
  ((strLt_iff a b).mp h).1

theorem strLt_ne {a b : String} (h : strLt a b = true) : a ≠ b :=
  ((strLt_iff a b).mp h).2

theorem strLt_conn {a b : String} (h : a ≠ b) :
    strLt a b = true ∨ strLt b a = true := by
  rcases strLe_total a b with h1 | h1
  · exact Or.inl (strLt_of_le_ne h1 h)
  · exact Or.inr (strLt_of_le_ne h1 (Ne.symm h))

theorem strLt_asymm {a b : String} (h1 : strLt a b = true) (h2 : strLt b a = true) :
    False :=
  strLt_ne h1 (strLe_antisymm (strLe_of_lt h1) (strLe_of_lt h2))

theorem EdgeLeB_refl (e : Edge) : EdgeLeB e e = true := by
  simp [EdgeLeB]

theorem EdgeLeB_total (e f : Edge) : EdgeLeB e f = true ∨ EdgeLeB f e = true := by
  unfold EdgeLeB
  by_cases h1 : e.1 = f.1
  · rw [if_pos h1, if_pos h1.symm]
    by_cases h2 : e.2.1 = f.2.1
    · rw [if_pos h2, if_pos h2.symm]
      rcases Int.le_total e.2.2 f.2.2 with h | h
      · exact Or.inl (by simpa using h)
      · exact Or.inr (by simpa using h)
    · rw [if_neg h2, if_neg (fun hc => h2 hc.symm)]
      exact strLt_conn h2
  · rw [if_neg h1, if_neg (fun hc => h1 hc.symm)]
    exact strLt_conn h1

theorem EdgeLeB_trans {e f k : Edge} (h1 : EdgeLeB e f = true) (h2 : EdgeLeB f k = true) :
    EdgeLeB e k = true := by
  unfold EdgeLeB at h1 h2 ⊢
  by_cases hef : e.1 = f.1
  · rw [if_pos hef] at h1
    by_cases hfk : f.1 = k.1
    · rw [if_pos hfk] at h2
      rw [if_pos (hef.trans hfk)]
      by_cases hef2 : e.2.1 = f.2.1
      · rw [if_pos hef2] at h1
        by_cases hfk2 : f.2.1 = k.2.1
        · rw [if_pos hfk2] at h2
          rw [if_pos (hef2.trans hfk2)]
          simp only [decide_eq_true_eq] at h1 h2 ⊢
          omega
        · rw [if_neg hfk2] at h2
          by_cases hek2 : e.2.1 = k.2.1
          · exact absurd (hef2.symm.trans hek2) hfk2
          · rw [if_neg hek2]
            rw [hef2]
            exact h2
      · rw [if_neg hef2] at h1
        by_cases hfk2 : f.2.1 = k.2.1
        · rw [if_neg (fun hc => hef2 (hc.trans hfk2.symm))]
          rw [← hfk2]
          exact h1
        · rw [if_neg hfk2] at h2
          by_cases hek2 : e.2.1 = k.2.1
          · exfalso
            rw [hek2] at h1
            exact strLt_asymm h1 h2
          · rw [if_neg hek2]
            exact strLt_of_le_ne (strLe_trans (strLe_of_lt h1) (strLe_of_lt h2)) hek2
    · rw [if_neg hfk] at h2
      rw [if_neg (fun hc => hfk (hef.symm.trans hc)), hef]
      exact h2
  · rw [if_neg hef] at h1
    by_cases hfk : f.1 = k.1
    · rw [if_neg (fun hc => hef (hc.trans hfk.symm)), ← hfk]
      exact h1
    · rw [if_neg hfk] at h2
      by_cases hek : e.1 = k.1
      · exfalso
        rw [hek] at h1
        exact strLt_asymm h1 h2
      · rw [if_neg hek]
        exact strLt_of_le_ne (strLe_trans (strLe_of_lt h1) (strLe_of_lt h2)) hek

theorem EdgeLeB_src_le {e f : Edge} (h : EdgeLeB e f = true) : strLe e.1 f.1 = true := by
  unfold EdgeLeB at h
  by_cases h1 : e.1 = f.1
  · rw [h1]
    exact strLe_refl _
  · rw [if_neg h1] at h
    exact strLe_of_lt h

theorem EdgeLeB_weight_le {e f : Edge} (h : EdgeLeB e f = true)
    (h1 : e.1 = f.1) (h2 : e.2.1 = f.2.1) : e.2.2 ≤ f.2.2 := by
  unfold EdgeLeB at h
  rw [if_pos h1, if_pos h2] at h
  simpa using h

/-! ## The node and edge sets and their sorted lists -/

theorem nodup_insert_beq {α : Type} [BEq α] [LawfulBEq α] {l : List α}
    (h : l.Nodup) (a : α) : (l.insert a).Nodup := by
  by_cases hm : a ∈ l
  · rw [List.insert_of_mem hm]
    exact h
  · rw [List.insert_of_not_mem hm]
    exact List.nodup_cons.mpr ⟨hm, h⟩

theorem mem_foldl_insert_nodes : ∀ (rows : List Row) (acc : List String) (x : String),
    (x ∈ rows.foldl (fun nodes r => (nodes.insert r.1).insert r.2.1) acc ↔
      x ∈ acc ∨ ∃ r ∈ rows, x = r.1 ∨ x = r.2.1)
  | [], acc, x => by simp
  | r :: rs, acc, x => by
      simp only [List.foldl_cons]
      rw [mem_foldl_insert_nodes rs]
      simp only [List.mem_insert_iff, List.mem_cons]
      constructor
      · rintro ((h | h | h) | ⟨q, hq, hx⟩)
        · exact Or.inr ⟨r, Or.inl rfl, Or.inr h⟩
        · exact Or.inr ⟨r, Or.inl rfl, Or.inl h⟩
        · exact Or.inl h
        · exact Or.inr ⟨q, Or.inr hq, hx⟩
      · rintro (h | ⟨q, hq | hq, hx⟩)
        · exact Or.inl (Or.inr (Or.inr h))
        · subst hq
          rcases hx with hx | hx
          · exact Or.inl (Or.inr (Or.inl hx))
          · exact Or.inl (Or.inl hx)
        · exact Or.inr ⟨q, hq, hx⟩

theorem nodup_foldl_insert_nodes : ∀ (rows : List Row) (acc : List String),
    acc.Nodup →
    (rows.foldl (fun nodes r => (nodes.insert r.1).insert r.2.1) acc).Nodup
  | [], _, h => h
  | _ :: rs, _, h => by
      simp only [List.foldl_cons]
      exact nodup_foldl_insert_nodes rs _ (nodup_insert_beq (nodup_insert_beq h _) _)

theorem collectNodes_mem (rows : List Row) (x : String) :
    x ∈ collectNodes rows ↔ ∃ r ∈ rows, x = r.1 ∨ x = r.2.1 := by
  unfold collectNodes
  rw [mem_foldl_insert_nodes]
  simp

theorem collectNodes_nodup (rows : List Row) : (collectNodes rows).Nodup :=
  nodup_foldl_insert_nodes rows [] List.nodup_nil

theorem mem_foldl_insert_edges : ∀ (rows : List Row) (acc : List Edge) (x : Edge),
    (x ∈ rows.foldl (fun edges r =>
        (edges.insert (r.1, r.2.1, r.2.2)).insert (r.2.1, r.1, r.2.2)) acc ↔
      x ∈ acc ∨ ∃ r ∈ rows, x = (r.1, r.2.1, r.2.2) ∨ x = (r.2.1, r.1, r.2.2))
  | [], acc, x => by simp
  | r :: rs, acc, x => by
      simp only [List.foldl_cons]
      rw [mem_foldl_insert_edges rs]
      simp only [List.mem_insert_iff, List.mem_cons]
      constructor
      · rintro ((h | h | h) | ⟨q, hq, hx⟩)
        · exact Or.inr ⟨r, Or.inl rfl, Or.inr h⟩
        · exact Or.inr ⟨r, Or.inl rfl, Or.inl h⟩
        · exact Or.inl h
        · exact Or.inr ⟨q, Or.inr hq, hx⟩
      · rintro (h | ⟨q, hq | hq, hx⟩)
        · exact Or.inl (Or.inr (Or.inr h))
        · subst hq
          rcases hx with hx | hx
          · exact Or.inl (Or.inr (Or.inl hx))
          · exact Or.inl (Or.inl hx)
        · exact Or.inr ⟨q, hq, hx⟩

theorem nodup_foldl_insert_edges : ∀ (rows : List Row) (acc : List Edge),
    acc.Nodup →
    (rows.foldl (fun edges r =>
        (edges.insert (r.1, r.2.1, r.2.2)).insert (r.2.1, r.1, r.2.2)) acc).Nodup
  | [], _, h => h
  | _ :: rs, _, h => by
      simp only [List.foldl_cons]
      exact nodup_foldl_insert_edges rs _ (nodup_insert_beq (nodup_insert_beq h _) _)

theorem collectEdges_mem (rows : List Row) (x : Edge) :
    x ∈ collectEdges rows ↔
      ∃ r ∈ rows, x = (r.1, r.2.1, r.2.2) ∨ x = (r.2.1, r.1, r.2.2) := by
  unfold collectEdges
  rw [mem_foldl_insert_edges]
  simp

theorem collectEdges_nodup (rows : List Row) : (collectEdges rows).Nodup :=
  nodup_foldl_insert_edges rows [] List.nodup_nil

theorem collectEdges_endpoints {rows : List Row} {e : Edge}
    (h : e ∈ collectEdges rows) :
    e.1 ∈ collectNodes rows ∧ e.2.1 ∈ collectNodes rows := by
  rw [collectEdges_mem] at h
  obtain ⟨r, hr, he | he⟩ := h
  · subst he
    exact ⟨(collectNodes_mem rows _).mpr ⟨r, hr, Or.inl rfl⟩,
           (collectNodes_mem rows _).mpr ⟨r, hr, Or.inr rfl⟩⟩
  · subst he
    exact ⟨(collectNodes_mem rows _).mpr ⟨r, hr, Or.inr rfl⟩,
           (collectNodes_mem rows _).mpr ⟨r, hr, Or.inl rfl⟩⟩

theorem collectEdges_swap (rows : List Row) (a b : String) (w : Int) :
    (a, b, w) ∈ collectEdges rows ↔ (b, a, w) ∈ collectEdges rows := by
  rw [collectEdges_mem, collectEdges_mem]
  constructor
  · rintro ⟨r, hr, h | h⟩
    · refine ⟨r, hr, Or.inr ?_⟩
      simp only [Prod.mk.injEq] at h ⊢
      exact ⟨h.2.1, h.1, h.2.2⟩
    · refine ⟨r, hr, Or.inl ?_⟩
      simp only [Prod.mk.injEq] at h ⊢
      exact ⟨h.2.1, h.1, h.2.2⟩
  · rintro ⟨r, hr, h | h⟩
    · refine ⟨r, hr, Or.inr ?_⟩
      simp only [Prod.mk.injEq] at h ⊢
      exact ⟨h.2.1, h.1, h.2.2⟩
    · refine ⟨r, hr, Or.inl ?_⟩
      simp only [Prod.mk.injEq] at h ⊢
      exact ⟨h.2.1, h.1, h.2.2⟩

theorem nodeList_sorted (rows : List Row) :
    List.Pairwise StrLeP (nodeListOf rows) := by
  haveI : IsTotal String StrLeP := ⟨fun a b => strLe_total a b⟩
  haveI : IsTrans String StrLeP := ⟨fun _ _ _ h1 h2 => strLe_trans h1 h2⟩
  exact List.sorted_insertionSort StrLeP (collectNodes rows)

theorem nodeList_perm (rows : List Row) :
    (nodeListOf rows).Perm (collectNodes rows) :=
  List.perm_insertionSort StrLeP (collectNodes rows)

theorem nodeList_nodup (rows : List Row) : (nodeListOf rows).Nodup :=
  ((nodeList_perm rows).symm).nodup (collectNodes_nodup rows)

theorem nodeList_mem (rows : List Row) (x : String) :
    x ∈ nodeListOf rows ↔ x ∈ collectNodes rows :=
  (nodeList_perm rows).mem_iff

theorem nodeList_pairwise_lt (rows : List Row) :
    List.Pairwise (fun a b => strLt a b = true) (nodeListOf rows) := by
  have h1 := nodeList_sorted rows
  have h2 : List.Pairwise (fun a b : String => a ≠ b) (nodeListOf rows) :=
    nodeList_nodup rows
  exact (h1.and h2).imp (fun h => strLt_of_le_ne h.1 h.2)

theorem indexOf_lt_of_strLt {l : List String}
    (hp : List.Pairwise (fun a b => strLt a b = true) l)
    {a b : String} (ha : a ∈ l) (hb : b ∈ l) (hab : strLt a b = true) :
    l.indexOf a < l.indexOf b := by
  have hia : l.indexOf a < l.length := List.indexOf_lt_length.mpr ha
  have hib : l.indexOf b < l.length := List.indexOf_lt_length.mpr hb
  by_contra hcon
  push_neg at hcon
  rcases Nat.lt_or_ge (l.indexOf b) (l.indexOf a) with hlt | hge
  · have hba := List.pairwise_iff_get.mp hp ⟨l.indexOf b, hib⟩ ⟨l.indexOf a, hia⟩ hlt
    rw [List.indexOf_get hib, List.indexOf_get hia] at hba
    exact strLt_asymm hab hba
  · have heq : l.indexOf a = l.indexOf b := by omega
    have hx : a = b := by
      rw [← List.indexOf_get hia, ← List.indexOf_get hib]
      congr 1
      exact Fin.ext heq
    exact strLt_ne hab hx

theorem strLt_of_indexOf_lt {l : List String}
    (hp : List.Pairwise (fun a b => strLt a b = true) l)
    {a b : String} (ha : a ∈ l) (hb : b ∈ l)
    (h : l.indexOf a < l.indexOf b) : strLt a b = true := by
  have hia : l.indexOf a < l.length := List.indexOf_lt_length.mpr ha
  have hib : l.indexOf b < l.length := List.indexOf_lt_length.mpr hb
  have hab := List.pairwise_iff_get.mp hp ⟨l.indexOf a, hia⟩ ⟨l.indexOf b, hib⟩ h
  rw [List.indexOf_get hia, List.indexOf_get hib] at hab
  exact hab

theorem indexOf_le_of_strLe {l : List String}
    (hp : List.Pairwise (fun a b => strLt a b = true) l)
    {a b : String} (ha : a ∈ l) (hb : b ∈ l) (hab : strLe a b = true) :
    l.indexOf a ≤ l.indexOf b := by
  by_cases he : a = b
  · subst he
    exact Nat.le_refl _
  · exact Nat.le_of_lt (indexOf_lt_of_strLt hp ha hb (strLt_of_le_ne hab he))

theorem edgeList_sorted (rows : List Row) :
    List.Pairwise EdgeLeP (edgeListOf rows) := by
  haveI : IsTotal Edge EdgeLeP := ⟨fun e f => EdgeLeB_total e f⟩
  haveI : IsTrans Edge EdgeLeP := ⟨fun _ _ _ h1 h2 => EdgeLeB_trans h1 h2⟩
  exact List.sorted_insertionSort EdgeLeP (collectEdges rows)

theorem edgeList_perm (rows : List Row) :
    (edgeListOf rows).Perm (collectEdges rows) :=
  List.perm_insertionSort EdgeLeP (collectEdges rows)

theorem edgeList_nodup (rows : List Row) : (edgeListOf rows).Nodup :=
  ((edgeList_perm rows).symm).nodup (collectEdges_nodup rows)

theorem edgeList_mem (rows : List Row) (x : Edge) :
    x ∈ edgeListOf rows ↔ x ∈ collectEdges rows :=
  (edgeList_perm rows).mem_iff

theorem edgeList_endpoints {rows : List Row} {e : Edge} (h : e ∈ edgeListOf rows) :
    e.1 ∈ nodeListOf rows ∧ e.2.1 ∈ nodeListOf rows := by
  have h2 := collectEdges_endpoints ((edgeList_mem rows e).mp h)
  exact ⟨(nodeList_mem rows _).mpr h2.1, (nodeList_mem rows _).mpr h2.2⟩

/-! ## scanl, countP, slice and lookup lemmas for the CSR arrays -/

theorem scanl_add_getD {α : Type} (f : α → Nat) :
    ∀ (l : List α) (b i : Nat), i ≤ l.length →
      (l.scanl (fun s a => s + f a) b).getD i 0 = b + ((l.take i).map f).sum
  | l, b, 0, _ => by cases l <;> simp [List.scanl]
  | [], _, i + 1, h => by simp at h
  | a :: as, b, i + 1, h => by
      rw [List.scanl_cons]
      simp only [List.singleton_append, List.getD_cons_succ, List.take_succ_cons,
        List.map_cons, List.sum_cons]
      rw [scanl_add_getD f as (b + f a) i (by simpa using h)]
      omega

theorem scanl_add_getLast {α : Type} (f : α → Nat) :
    ∀ (l : List α) (b : Nat),
      (l.scanl (fun s a => s + f a) b).getLast? = some (b + (l.map f).sum)
  | [], b => by simp [List.scanl]
  | a :: as, b => by
      rw [List.scanl_cons, List.getLast?_append, scanl_add_getLast f as (b + f a)]
      simp only [List.map_cons, List.sum_cons]
      show some (b + f a + (as.map f).sum) = some (b + (f a + (as.map f).sum))
      congr 1
      omega

theorem scanl_add_le_mem {α : Type} (f : α → Nat) :
    ∀ (l : List α) (b x : Nat), x ∈ l.scanl (fun s a => s + f a) b → b ≤ x
  | [], b, x, h => by
      simp [List.scanl] at h
      omega
  | a :: as, b, x, h => by
      rw [List.scanl_cons] at h
      simp only [List.singleton_append, List.mem_cons] at h
      rcases h with h | h
      · omega
      · have := scanl_add_le_mem f as (b + f a) x h
        omega

theorem scanl_add_pairwise {α : Type} (f : α → Nat) :
    ∀ (l : List α) (b : Nat),
      List.Pairwise (· ≤ ·) (l.scanl (fun s a => s + f a) b)
  | [], b => by simp [List.scanl]
  | a :: as, b => by
      rw [List.scanl_cons]
      simp only [List.singleton_append]
      refine List.pairwise_cons.mpr ⟨?_, scanl_add_pairwise f as (b + f a)⟩
      intro x hx
      have := scanl_add_le_mem f as (b + f a) x hx
      omega

theorem countP_or_disjoint {α : Type} (p q : α → Bool) :
    ∀ l : List α, (∀ x ∈ l, ¬(p x = true ∧ q x = true)) →
      l.countP (fun x => p x || q x) = l.countP p + l.countP q
  | [], _ => by simp
  | a :: as, h => by
      simp only [List.countP_cons]
      rw [countP_or_disjoint p q as (fun x hx => h x (List.mem_cons_of_mem a hx))]
      have ha := h a (List.mem_cons_self a as)
      by_cases hp : p a = true
      · have hq : ¬q a = true := fun hq => ha ⟨hp, hq⟩
        rw [if_pos hp, if_neg hq, if_pos (show (p a || q a) = true by simp [hp])]
        omega
      · by_cases hq : q a = true
        · rw [if_neg hp, if_pos hq, if_pos (show (p a || q a) = true by simp [hq])]
          omega
        · rw [if_neg hp, if_neg hq,
            if_neg (show ¬(p a || q a) = true by simp [hp, hq])]
          omega

theorem sum_countP_key {α β : Type} [DecidableEq β] (key : α → β) (l : List α) :
    ∀ ks : List β, ks.Nodup →
      (ks.map (fun k => l.countP (fun x => key x = k))).sum =
        l.countP (fun x => decide (key x ∈ ks))
  | [], _ => by simp
  | k :: ks, h => by
      simp only [List.map_cons, List.sum_cons]
      rw [sum_countP_key key l ks (List.nodup_cons.mp h).2]
      have hdis : ∀ x ∈ l, ¬((fun x => decide (key x = k)) x = true ∧
          (fun x => decide (key x ∈ ks)) x = true) := by
        intro x _
        simp only [decide_eq_true_eq]
        rintro ⟨h1, h2⟩
        rw [h1] at h2
        exact (List.nodup_cons.mp h).1 h2
      rw [← countP_or_disjoint _ _ l hdis]
      apply List.countP_congr
      intro x _
      simp [List.mem_cons]

theorem filter_eq_take_of_lower {α : Type} (key : α → Nat) (i : Nat) :
    ∀ es : List α, List.Pairwise (fun x y => key x ≤ key y) es →
      (∀ y ∈ es, i ≤ key y) →
      es.filter (fun x => key x = i) = es.take (es.countP (fun x => key x = i))
  | [], _, _ => by simp
  | f :: fs, hp, hlow => by
      have hhd := (List.pairwise_cons.mp hp).1
      have hp2 := (List.pairwise_cons.mp hp).2
      by_cases hf : key f = i
      · have hb : (fun x => decide (key x = i)) f = true := by simpa using hf
        rw [List.filter_cons, if_pos hb, List.countP_cons, if_pos hb,
          List.take_succ_cons]
        rw [filter_eq_take_of_lower key i fs hp2
          (fun y hy => le_trans (hlow f (List.mem_cons_self f fs)) (hf ▸ hhd y hy))]
      · have hflt : i < key f :=
          Nat.lt_of_le_of_ne (hlow f (List.mem_cons_self f fs)) (fun hc => hf hc.symm)
        have hb : ¬(fun x => decide (key x = i)) f = true := by simpa using hf
        have hzero : fs.countP (fun x => key x = i) = 0 := by
          rw [List.countP_eq_zero]
          intro y hy
          simp only [decide_eq_true_eq]
          have := hhd y hy
          omega
        have hnil : fs.filter (fun x => key x = i) = [] := by
          rw [List.filter_eq_nil_iff]
          intro y hy
          simp only [decide_eq_true_eq]
          have := hhd y hy
          omega
        rw [List.filter_cons, if_neg hb, List.countP_cons, if_neg hb, hzero, hnil]
        rfl

theorem sorted_key_filter_slice {α : Type} (key : α → Nat) (i : Nat) :
    ∀ l : List α, List.Pairwise (fun x y => key x ≤ key y) l →
      l.filter (fun x => key x = i) =
        (l.drop (l.countP (fun x => key x < i))).take
          (l.countP (fun x => key x = i))
  | [], _ => by simp
  | e :: es, hp => by
      have hhd := (List.pairwise_cons.mp hp).1
      have hp2 := (List.pairwise_cons.mp hp).2
      rcases Nat.lt_trichotomy (key e) i with he | he | he
      · have hb1 : (fun x => decide (key x < i)) e = true := by simpa using he
        have hb2 : ¬(fun x => decide (key x = i)) e = true := by simp; omega
        rw [List.filter_cons, if_neg hb2, List.countP_cons, List.countP_cons,
          if_pos hb1, if_neg hb2]
        simp only [Nat.add_zero]
        rw [List.drop_succ_cons]
        exact sorted_key_filter_slice key i es hp2
      · have hb1 : ¬(fun x => decide (key x < i)) e = true := by simp; omega
        have hb2 : (fun x => decide (key x = i)) e = true := by simpa using he
        have hzero : es.countP (fun x => key x < i) = 0 := by
          rw [List.countP_eq_zero]
          intro y hy
          simp only [decide_eq_true_eq]
          have := hhd y hy
          omega
        rw [List.filter_cons, if_pos hb2, List.countP_cons, List.countP_cons,
          if_neg hb1, if_pos hb2, hzero]
        simp only [Nat.add_zero, List.drop_zero, List.take_succ_cons]
        rw [filter_eq_take_of_lower key i es hp2
          (fun y hy => by have := hhd y hy; omega)]
      · have hb1 : ¬(fun x => decide (key x < i)) e = true := by simp; omega
        have hb2 : ¬(fun x => decide (key x = i)) e = true := by simp; omega
        have hzero : es.countP (fun x => key x < i) = 0 := by
          rw [List.countP_eq_zero]
          intro y hy
          simp only [decide_eq_true_eq]
          have := hhd y hy
          omega
        have hzero2 : es.countP (fun x => key x = i) = 0 := by
          rw [List.countP_eq_zero]
          intro y hy
          simp only [decide_eq_true_eq]
          have := hhd y hy
          omega
        have hnil : es.filter (fun x => key x = i) = [] := by
          rw [List.filter_eq_nil_iff]
          intro y hy
          simp only [decide_eq_true_eq]
          have := hhd y hy
          omega
        rw [List.filter_cons, if_neg hb2, List.countP_cons, List.countP_cons,
          if_neg hb1, if_neg hb2, hzero, hzero2, hnil]
        rfl

theorem indexOf_cons_of_ne {α : Type} [DecidableEq α] {a x : α} (xs : List α)
    (h : a ≠ x) : (x :: xs).indexOf a = xs.indexOf a + 1 := by
  rw [List.indexOf_cons]
  have hb : (x == a) = false := by
    simp only [beq_eq_false_iff_ne, ne_eq]
    exact fun hc => h hc.symm
  rw [hb]
  rfl

theorem indexOf_lt_iff_mem_take {α : Type} [DecidableEq α] :
    ∀ (l : List α) (a : α) (i : Nat), a ∈ l →
      (a ∈ l.take i ↔ l.indexOf a < i)
  | [], a, i, h => by simp at h
  | x :: xs, a, i, h => by
      cases i with
      | zero => simp
      | succ i =>
          rw [List.take_succ_cons]
          by_cases hax : a = x
          · subst hax
            simp [List.indexOf_cons_self]
          · have hmem : a ∈ xs := by
              rcases List.mem_cons.mp h with h1 | h1
              · exact absurd h1 hax
              · exact h1
            rw [indexOf_cons_of_ne xs hax]
            constructor
            · intro hm
              rcases List.mem_cons.mp hm with h1 | h1
              · exact absurd h1 hax
              · have := (indexOf_lt_iff_mem_take xs a i hmem).mp h1
                omega
            · intro hlt
              exact List.mem_cons_of_mem x
                ((indexOf_lt_iff_mem_take xs a i hmem).mpr (by omega))

theorem lookup_zip_range_aux :
    ∀ (l : List String) (t : Nat), l.Nodup → ∀ a : String,
      (l.zip ((List.range l.length).map (· + t))).lookup a =
        if a ∈ l then some (l.indexOf a + t) else none
  | [], _, _, a => by simp
  | x :: xs, t, h, a => by
      have hlen : (x :: xs).length = xs.length + 1 := rfl
      rw [hlen, List.range_succ_eq_map]
      simp only [List.map_cons, Nat.zero_add, List.map_map]
      rw [List.zip_cons_cons, List.lookup_cons]
      by_cases hax : a = x
      · subst hax
        rw [if_pos (List.mem_cons_self a xs), List.indexOf_cons_self]
        simp [List.lookup_cons]
      · have hb : (a == x) = false := by simp [hax]
        rw [hb]
        have hcomp : ((fun i => i + t) ∘ Nat.succ) = fun i => i + (t + 1) := by
          funext i
          simp only [Function.comp_apply, Nat.succ_eq_add_one]
          omega
        rw [hcomp, lookup_zip_range_aux xs (t + 1) (List.nodup_cons.mp h).2 a]
        by_cases hm : a ∈ xs
        · rw [if_pos hm, if_pos (List.mem_cons_of_mem x hm),
            indexOf_cons_of_ne xs hax]
          have harg : xs.indexOf a + (t + 1) = xs.indexOf a + 1 + t := by omega
          rw [harg]
        · rw [if_neg hm, if_neg (by simp [hax, hm])]

theorem lookup_zip_range (l : List String) (h : l.Nodup) (a : String) :
    (l.zip (List.range l.length)).lookup a =
      if a ∈ l then some (l.indexOf a) else none := by
  have haux := lookup_zip_range_aux l 0 h a
  have hmap : (List.range l.length).map (· + 0) = List.range l.length := by
    simp
  rw [hmap] at haux
  simpa using haux

theorem lookup_append_left {β : Type} :
    ∀ (m m2 : List (String × β)) (k : String) (v : β),
      m.lookup k = some v → (m ++ m2).lookup k = some v
  | [], _, _, _, h => by simp at h
  | (pk, pv) :: ps, m2, k, v, h => by
      rw [List.cons_append, List.lookup_cons]
      rw [List.lookup_cons] at h
      by_cases hk : k = pk
      · subst hk
        simpa using h
      · have hb : (k == pk) = false := by simp [hk]
        rw [hb] at h ⊢
        exact lookup_append_left ps m2 k v h

theorem lookup_none_iff {β : Type} :
    ∀ (m : List (String × β)) (k : String),
      (m.lookup k = none ↔ k ∉ m.map Prod.fst)
  | [], k => by simp
  | (pk, pv) :: ps, k => by
      rw [List.lookup_cons]
      by_cases hk : k = pk
      · subst hk
        simp
      · have hb : (k == pk) = false := by simp [hk]
        rw [hb]
        simp only [List.map_cons, List.mem_cons]
        rw [lookup_none_iff ps k]
        constructor
        · intro h1 h2
          rcases h2 with h2 | h2
          · exact hk h2
          · exact h1 h2
        · intro h1 h2
          exact h1 (Or.inr h2)

/-! ## C1: the CSR invariant of offset_to_edge_ / edge_to -/

theorem buildGraph_offset (rows : List Row) :
    (buildGraph rows).offset_to_edge_ =
      (nodeListOf rows).scanl
        (fun off n => off + (edgeListOf rows).countP (fun e => e.1 = n)) 0 := rfl

theorem buildGraph_edge_to (rows : List Row) :
    (buildGraph rows).edge_to =
      (edgeListOf rows).map (fun e => (nodeListOf rows).indexOf e.2.1) := rfl

theorem buildGraph_node_count (rows : List Row) :
    (buildGraph rows).node_count = (nodeListOf rows).length := by
  show ((nodeListOf rows).zip (List.range (nodeListOf rows).length)).length = _
  simp [List.length_zip]

theorem buildGraph_edge_count (rows : List Row) :
    (buildGraph rows).edge_count = (edgeListOf rows).length := by
  show ((edgeListOf rows).map _).length = _
  simp

theorem edgeList_src_pairwise (rows : List Row) :
    List.Pairwise (fun e f : Edge =>
      (nodeListOf rows).indexOf e.1 ≤ (nodeListOf rows).indexOf f.1)
      (edgeListOf rows) :=
  (edgeList_sorted rows).imp_of_mem (fun {e f} he hf hef =>
    indexOf_le_of_strLe (nodeList_pairwise_lt rows)
      (edgeList_endpoints he).1 (edgeList_endpoints hf).1 (EdgeLeB_src_le hef))

theorem offsetAt_eq_countP (rows : List Row) (i : Nat)
    (hi : i ≤ (nodeListOf rows).length) :
    (buildGraph rows).offsetAt i =
      (edgeListOf rows).countP
        (fun e => (nodeListOf rows).indexOf e.1 < i) := by
  show ((nodeListOf rows).scanl
      (fun off n => off + (edgeListOf rows).countP (fun e => e.1 = n)) 0).getD i 0 = _
  rw [scanl_add_getD (fun n => (edgeListOf rows).countP (fun e => e.1 = n))
    (nodeListOf rows) 0 i hi, Nat.zero_add]
  have hnd : ((nodeListOf rows).take i).Nodup :=
    (List.take_sublist i _).nodup (nodeList_nodup rows)
  rw [sum_countP_key (Prod.fst : Edge → String) (edgeListOf rows)
    ((nodeListOf rows).take i) hnd]
  apply List.countP_congr
  intro e he
  have hsrc : e.1 ∈ nodeListOf rows := (edgeList_endpoints he).1
  simp only [decide_eq_true_eq]
  exact indexOf_lt_iff_mem_take (nodeListOf rows) e.1 i hsrc

theorem neighbors_as_ints_eq (rows : List Row) (i : Nat)
    (hi : i < (nodeListOf rows).length) :
    (buildGraph rows).neighbors_as_ints i =
      ((edgeListOf rows).filter (fun e => e.1 = (nodeListOf rows).getD i "")).map
        (fun e => (nodeListOf rows).indexOf e.2.1) := by
  unfold CSFGraph.neighbors_as_ints
  rw [buildGraph_edge_to, offsetAt_eq_countP rows i (Nat.le_of_lt hi),
    offsetAt_eq_countP rows (i + 1) hi]
  rw [← List.map_drop, ← List.map_take]
  have hsplit : (edgeListOf rows).countP
        (fun e => (nodeListOf rows).indexOf e.1 < i + 1) =
      (edgeListOf rows).countP (fun e => (nodeListOf rows).indexOf e.1 < i) +
      (edgeListOf rows).countP (fun e => (nodeListOf rows).indexOf e.1 = i) := by
    rw [← countP_or_disjoint _ _ (edgeListOf rows)
      (fun e _ => by simp only [decide_eq_true_eq]; omega)]
    apply List.countP_congr
    intro e _
    simp only [decide_eq_true_eq, Bool.or_eq_true]
    omega
  have hdiff : (edgeListOf rows).countP
        (fun e => (nodeListOf rows).indexOf e.1 < i + 1) -
      (edgeListOf rows).countP (fun e => (nodeListOf rows).indexOf e.1 < i) =
      (edgeListOf rows).countP (fun e => (nodeListOf rows).indexOf e.1 = i) := by
    omega
  rw [hdiff,
    ← sorted_key_filter_slice (fun e : Edge => (nodeListOf rows).indexOf e.1) i
      (edgeListOf rows) (edgeList_src_pairwise rows)]
  congr 1
  apply List.filter_congr
  intro e he
  have hsrc : e.1 ∈ nodeListOf rows := (edgeList_endpoints he).1
  have hsl : (nodeListOf rows).indexOf e.1 < (nodeListOf rows).length :=
    List.indexOf_lt_length.mpr hsrc
  rw [decide_eq_decide]
  constructor
  · intro h
    rw [List.getD_eq_getElem (nodeListOf rows) "" hi]
    subst h
    exact (List.getElem_indexOf hsl).symm
  · intro h
    rw [List.getD_eq_getElem (nodeListOf rows) "" hi] at h
    rw [h]
    have := List.get_indexOf (nodeList_nodup rows) ⟨i, hi⟩
    simpa using this

/-- C1: offset_to_edge_ is a valid CSR index for the constructed graph:
length node_count+1, first entry 0, non-decreasing, last entry
edge_count, and the edge_to slice between offsets i and i+1 is exactly
the list of destination indices of the sorted stored edges whose source
is node i (which is what neighbors_as_ints(i) returns). -/
theorem claim_c1_csr_invariant (rows : List Row) (i : Nat)
    (hi : i < (buildGraph rows).node_count) :
    (buildGraph rows).offset_to_edge_.length = (buildGraph rows).node_count + 1 ∧
    (buildGraph rows).offset_to_edge_.getD 0 0 = 0 ∧
    List.Pairwise (· ≤ ·) (buildGraph rows).offset_to_edge_ ∧
    (buildGraph rows).offset_to_edge_.getLast? = some (buildGraph rows).edge_count ∧
    (buildGraph rows).neighbors_as_ints i =
      ((edgeListOf rows).filter (fun e => e.1 = (nodeListOf rows).getD i "")).map
        (fun e => (nodeListOf rows).indexOf e.2.1) := by
  rw [buildGraph_node_count] at hi
  refine ⟨?_, ?_, ?_, ?_, neighbors_as_ints_eq rows i hi⟩
  · rw [buildGraph_offset, List.length_scanl, buildGraph_node_count]
  · have h0 := offsetAt_eq_countP rows 0 (Nat.zero_le _)
    unfold CSFGraph.offsetAt at h0
    rw [h0, List.countP_eq_zero]
    intro e _
    simp
  · rw [buildGraph_offset]
    exact scanl_add_pairwise _ (nodeListOf rows) 0
  · rw [buildGraph_offset,
      scanl_add_getLast (fun n => (edgeListOf rows).countP (fun e => e.1 = n))
        (nodeListOf rows) 0]
    rw [sum_countP_key (Prod.fst : Edge → String) (edgeListOf rows)
      (nodeListOf rows) (nodeList_nodup rows)]
    have hall : (edgeListOf rows).countP
        (fun e => decide (e.1 ∈ nodeListOf rows)) = (edgeListOf rows).length := by
      rw [List.countP_eq_length]
      intro e he
      simpa using (edgeList_endpoints he).1
    rw [hall, Nat.zero_add, buildGraph_edge_count]

theorem claim_c1_witness :
    0 < (buildGraph [("b", "a", 1)]).node_count ∧
    ((buildGraph [("b", "a", 1)]).offset_to_edge_.length =
        (buildGraph [("b", "a", 1)]).node_count + 1 ∧
     (buildGraph [("b", "a", 1)]).offset_to_edge_.getD 0 0 = 0 ∧
     List.Pairwise (· ≤ ·) (buildGraph [("b", "a", 1)]).offset_to_edge_ ∧
     (buildGraph [("b", "a", 1)]).offset_to_edge_.getLast? =
        some (buildGraph [("b", "a", 1)]).edge_count ∧
     (buildGraph [("b", "a", 1)]).neighbors_as_ints 0 =
       ((edgeListOf [("b", "a", 1)]).filter
          (fun e => e.1 = (nodeListOf [("b", "a", 1)]).getD 0 "")).map
         (fun e => (nodeListOf [("b", "a", 1)]).indexOf e.2.1)) :=
  ⟨by decide, claim_c1_csr_invariant [("b", "a", 1)] 0 (by decide)⟩

/-! ## C6: node numbering is the rank in the sorted node list -/

theorem buildGraph_lookup (rows : List Row) (a : String)
    (ha : a ∈ nodeListOf rows) :
    (buildGraph rows).node_to_index_map.lookup a =
      some ((nodeListOf rows).indexOf a) := by
  show ((nodeListOf rows).zip (List.range (nodeListOf rows).length)).lookup a = _
  rw [lookup_zip_range (nodeListOf rows) (nodeList_nodup rows) a, if_pos ha]

theorem buildGraph_lookup_none (rows : List Row) (a : String)
    (ha : a ∉ nodeListOf rows) :
    (buildGraph rows).node_to_index_map.lookup a = none := by
  show ((nodeListOf rows).zip (List.range (nodeListOf rows).length)).lookup a = _
  rw [lookup_zip_range (nodeListOf rows) (nodeList_nodup rows) a, if_neg ha]

theorem buildGraph_nodes (rows : List Row) :
    (buildGraph rows).nodes = nodeListOf rows := by
  show ((nodeListOf rows).zip (List.range (nodeListOf rows).length)).map Prod.fst = _
  exact List.map_fst_zip _ _ (by simp)

/-- C6: node_to_index_map sends each node name to its rank in the
alphabetically sorted node list; it is strictly monotone for the
lexicographic order of names, maps the node set into 0..node_count-1,
and index_to_node_map inverts it in both directions (so it is onto). -/
theorem claim_c6_node_numbering (rows : List Row) (a b : String) (i : Nat)
    (ha : a ∈ (buildGraph rows).nodes) (hb : b ∈ (buildGraph rows).nodes)
    (hi : i < (buildGraph rows).node_count) :
    (buildGraph rows).node_to_index_map.lookup a =
        some ((nodeListOf rows).indexOf a) ∧
    (nodeListOf rows).indexOf a < (buildGraph rows).node_count ∧
    (strLt a b = true ↔ (nodeListOf rows).indexOf a < (nodeListOf rows).indexOf b) ∧
    (buildGraph rows).index_to_node_map.getD ((nodeListOf rows).indexOf a) "" = a ∧
    (buildGraph rows).node_to_index_map.lookup
        ((buildGraph rows).index_to_node_map.getD i "") = some i := by
  rw [buildGraph_nodes] at ha hb
  rw [buildGraph_node_count] at hi ⊢
  have hitn : (buildGraph rows).index_to_node_map = nodeListOf rows := rfl
  have hl : (nodeListOf rows).indexOf a < (nodeListOf rows).length :=
    List.indexOf_lt_length.mpr ha
  refine ⟨buildGraph_lookup rows a ha, hl, ?_, ?_, ?_⟩
  · constructor
    · exact fun h => indexOf_lt_of_strLt (nodeList_pairwise_lt rows) ha hb h
    · exact fun h => strLt_of_indexOf_lt (nodeList_pairwise_lt rows) ha hb h
  · rw [hitn, List.getD_eq_getElem _ "" hl]
    exact List.getElem_indexOf hl
  · rw [hitn, List.getD_eq_getElem _ "" hi]
    have hmem : (nodeListOf rows)[i] ∈ nodeListOf rows := List.getElem_mem hi
    rw [buildGraph_lookup rows _ hmem]
    congr 1
    have := List.get_indexOf (nodeList_nodup rows) ⟨i, hi⟩
    simpa using this

theorem claim_c6_witness :
    "a" ∈ (buildGraph [("b", "a", 1)]).nodes ∧
    "b" ∈ (buildGraph [("b", "a", 1)]).nodes ∧
    1 < (buildGraph [("b", "a", 1)]).node_count ∧
    ((buildGraph [("b", "a", 1)]).node_to_index_map.lookup "a" =
        some ((nodeListOf [("b", "a", 1)]).indexOf "a") ∧
     (nodeListOf [("b", "a", 1)]).indexOf "a" <
        (buildGraph [("b", "a", 1)]).node_count ∧
     (strLt "a" "b" = true ↔
        (nodeListOf [("b", "a", 1)]).indexOf "a" <
          (nodeListOf [("b", "a", 1)]).indexOf "b") ∧
     (buildGraph [("b", "a", 1)]).index_to_node_map.getD
        ((nodeListOf [("b", "a", 1)]).indexOf "a") "" = "a" ∧
     (buildGraph [("b", "a", 1)]).node_to_index_map.lookup
        ((buildGraph [("b", "a", 1)]).index_to_node_map.getD 1 "") = some 1) :=
  ⟨by decide, by decide, by decide,
    claim_c6_node_numbering [("b", "a", 1)] "a" "b" 1 (by decide) (by decide) (by decide)⟩

/-! ## C7: name-level and index-level adjacency views agree -/

theorem neighbors_eq_of_lookup (g : CSFGraph) (n : String) (idx : Nat)
    (h : g.node_to_index_map.lookup n = some idx) :
    g.neighbors n =
      (((g.edge_to.drop (g.offsetAt idx)).take
          (g.offsetAt (idx + 1) - g.offsetAt idx)).map
        (fun t => g.index_to_node_map.getD t ""), g) := by
  simp only [CSFGraph.neighbors, dictGetDefault, h]

theorem weight_eq_of_lookups (g : CSFGraph) (a b : String) (ia ib : Nat)
    (h1 : g.node_to_index_map.lookup a = some ia)
    (h2 : g.node_to_index_map.lookup b = some ib) :
    g.weight a b =
      (((((g.edge_to.zip g.edge_weight).drop (g.offsetAt ia)).take
          (g.offsetAt (ia + 1) - g.offsetAt ia)).find?
        (fun p => p.1 = ib)).map Prod.snd, g) := by
  simp only [CSFGraph.weight, dictGetDefault, h1, h2]

theorem has_edge_eq_of_lookups (g : CSFGraph) (a b : String) (ia ib : Nat)
    (h1 : g.node_to_index_map.lookup a = some ia)
    (h2 : g.node_to_index_map.lookup b = some ib) :
    g.has_edge a b =
      (((g.edge_to.drop (g.offsetAt ia)).take
          (g.offsetAt (ia + 1) - g.offsetAt ia)).any (fun nbr => nbr = ib), g) := by
  simp only [CSFGraph.has_edge, dictGetDefault, h1, h2]

/-- C7: the string-level and integer-level adjacency views agree:
neighbors(n) is index_to_node_map mapped over
neighbors_as_ints(node_to_index_map[n]), and weight coincides with
weight_from_ints at the corresponding indices. -/
theorem claim_c7_views_agree (rows : List Row) (n a b : String)
    (hn : n ∈ (buildGraph rows).nodes) (ha : a ∈ (buildGraph rows).nodes)
    (hb : b ∈ (buildGraph rows).nodes) :
    ((buildGraph rows).neighbors n).1 =
      ((buildGraph rows).neighbors_as_ints ((nodeListOf rows).indexOf n)).map
        (fun t => (buildGraph rows).index_to_node_map.getD t "") ∧
    ((buildGraph rows).weight a b).1 =
      (buildGraph rows).weight_from_ints ((nodeListOf rows).indexOf a)
        ((nodeListOf rows).indexOf b) := by
  rw [buildGraph_nodes] at hn ha hb
  constructor
  · rw [neighbors_eq_of_lookup (buildGraph rows) n _ (buildGraph_lookup rows n hn)]
    rfl
  · rw [weight_eq_of_lookups (buildGraph rows) a b _ _
      (buildGraph_lookup rows a ha) (buildGraph_lookup rows b hb)]
    rfl

theorem claim_c7_witness :
    "a" ∈ (buildGraph [("b", "a", 1)]).nodes ∧
    "b" ∈ (buildGraph [("b", "a", 1)]).nodes ∧
    (((buildGraph [("b", "a", 1)]).neighbors "a").1 =
      ((buildGraph [("b", "a", 1)]).neighbors_as_ints
          ((nodeListOf [("b", "a", 1)]).indexOf "a")).map
        (fun t => (buildGraph [("b", "a", 1)]).index_to_node_map.getD t "") ∧
     ((buildGraph [("b", "a", 1)]).weight "a" "b").1 =
      (buildGraph [("b", "a", 1)]).weight_from_ints
        ((nodeListOf [("b", "a", 1)]).indexOf "a")
        ((nodeListOf [("b", "a", 1)]).indexOf "b")) :=
  ⟨by decide, by decide,
    claim_c7_views_agree [("b", "a", 1)] "a" "a" "b" (by decide) (by decide) (by decide)⟩

/-! ## C8: stored edges are symmetric -/

theorem find?_eq_head?_filter {α : Type} (p : α → Bool) :
    ∀ l : List α, l.find? p = (l.filter p).head?
  | [] => rfl
  | a :: as => by
      by_cases hp : p a = true
      · rw [List.find?_cons_of_pos as hp, List.filter_cons, if_pos hp]
        rfl
      · rw [List.find?_cons_of_neg as hp, List.filter_cons, if_neg hp]
        exact find?_eq_head?_filter p as

theorem any_map_general {α β : Type} (f : α → β) (p : β → Bool) :
    ∀ l : List α, (l.map f).any p = l.any (fun x => p (f x))
  | [] => rfl
  | a :: as => by
      simp only [List.map_cons, List.any_cons]
      rw [any_map_general f p as]

theorem filter_src_idx (rows : List Row) (i : Nat)
    (hi : i < (nodeListOf rows).length) :
    (edgeListOf rows).filter
        (fun e => (nodeListOf rows).indexOf e.1 = i) =
      (edgeListOf rows).filter (fun e => e.1 = (nodeListOf rows).getD i "") := by
  apply List.filter_congr
  intro e he
  have hsrc : e.1 ∈ nodeListOf rows := (edgeList_endpoints he).1
  have hsl : (nodeListOf rows).indexOf e.1 < (nodeListOf rows).length :=
    List.indexOf_lt_length.mpr hsrc
  rw [decide_eq_decide]
  constructor
  · intro h
    rw [List.getD_eq_getElem (nodeListOf rows) "" hi]
    subst h
    exact (List.getElem_indexOf hsl).symm
  · intro h
    rw [List.getD_eq_getElem (nodeListOf rows) "" hi] at h
    rw [h]
    have := List.get_indexOf (nodeList_nodup rows) ⟨i, hi⟩
    simpa using this

theorem mapped_edge_slice {β : Type} (rows : List Row) (f : Edge → β) (i : Nat)
    (hi : i < (nodeListOf rows).length) :
    (((edgeListOf rows).map f).drop ((buildGraph rows).offsetAt i)).take
        ((buildGraph rows).offsetAt (i + 1) - (buildGraph rows).offsetAt i) =
      ((edgeListOf rows).filter (fun e => e.1 = (nodeListOf rows).getD i "")).map f := by
  rw [offsetAt_eq_countP rows i (Nat.le_of_lt hi), offsetAt_eq_countP rows (i + 1) hi]
  rw [← List.map_drop, ← List.map_take]
  have hsplit : (edgeListOf rows).countP
        (fun e => (nodeListOf rows).indexOf e.1 < i + 1) =
      (edgeListOf rows).countP (fun e => (nodeListOf rows).indexOf e.1 < i) +
      (edgeListOf rows).countP (fun e => (nodeListOf rows).indexOf e.1 = i) := by
    rw [← countP_or_disjoint _ _ (edgeListOf rows)
      (fun e _ => by simp only [decide_eq_true_eq]; omega)]
    apply List.countP_congr
    intro e _
    simp only [decide_eq_true_eq, Bool.or_eq_true]
    omega
  have hdiff : (edgeListOf rows).countP
        (fun e => (nodeListOf rows).indexOf e.1 < i + 1) -
      (edgeListOf rows).countP (fun e => (nodeListOf rows).indexOf e.1 < i) =
      (edgeListOf rows).countP (fun e => (nodeListOf rows).indexOf e.1 = i) := by
    omega
  rw [hdiff,
    ← sorted_key_filter_slice (fun e : Edge => (nodeListOf rows).indexOf e.1) i
      (edgeListOf rows) (edgeList_src_pairwise rows),
    filter_src_idx rows i hi]

theorem edgeList_swap (rows : List Row) (a b : String) (w : Int) :
    (a, b, w) ∈ edgeListOf rows ↔ (b, a, w) ∈ edgeListOf rows := by
  rw [edgeList_mem, edgeList_mem]
  exact collectEdges_swap rows a b w

theorem weight_fst_of_lookups (g : CSFGraph) (a b : String) (ia ib : Nat)
    (h1 : g.node_to_index_map.lookup a = some ia)
    (h2 : g.node_to_index_map.lookup b = some ib) :
    (g.weight a b).1 =
      ((((g.edge_to.zip g.edge_weight).drop (g.offsetAt ia)).take
          (g.offsetAt (ia + 1) - g.offsetAt ia)).find?
        (fun p => p.1 = ib)).map Prod.snd := by
  rw [weight_eq_of_lookups g a b ia ib h1 h2]

theorem has_edge_fst_of_lookups (g : CSFGraph) (a b : String) (ia ib : Nat)
    (h1 : g.node_to_index_map.lookup a = some ia)
    (h2 : g.node_to_index_map.lookup b = some ib) :
    (g.has_edge a b).1 =
      ((g.edge_to.drop (g.offsetAt ia)).take
          (g.offsetAt (ia + 1) - g.offsetAt ia)).any (fun nbr => nbr = ib) := by
  rw [has_edge_eq_of_lookups g a b ia ib h1 h2]

theorem getD_indexOf_self (rows : List Row) (a : String) (ha : a ∈ nodeListOf rows) :
    (nodeListOf rows).getD ((nodeListOf rows).indexOf a) "" = a := by
  have hl : (nodeListOf rows).indexOf a < (nodeListOf rows).length :=
    List.indexOf_lt_length.mpr ha
  rw [List.getD_eq_getElem _ "" hl]
  exact List.getElem_indexOf hl

theorem weight_value (rows : List Row) (a b : String)
    (ha : a ∈ nodeListOf rows) (hb : b ∈ nodeListOf rows) :
    ((buildGraph rows).weight a b).1 =
      (((edgeListOf rows).filter (fun e => decide (e.1 = a ∧ e.2.1 = b))).map
        (fun e => int32ofInt e.2.2)).head? := by
  have hia : (nodeListOf rows).indexOf a < (nodeListOf rows).length :=
    List.indexOf_lt_length.mpr ha
  have hz : (buildGraph rows).edge_to.zip (buildGraph rows).edge_weight =
      (edgeListOf rows).map
        (fun e => ((nodeListOf rows).indexOf e.2.1, int32ofInt e.2.2)) := by
    show ((edgeListOf rows).map _).zip ((edgeListOf rows).map _) = _
    rw [List.zip_map']
  rw [weight_fst_of_lookups (buildGraph rows) a b _ _
    (buildGraph_lookup rows a ha) (buildGraph_lookup rows b hb), hz,
    mapped_edge_slice rows _ ((nodeListOf rows).indexOf a) hia,
    getD_indexOf_self rows a ha, List.find?_map, Option.map_map]
  have hcomp1 : ((fun p : Nat × Int => decide (p.1 = (nodeListOf rows).indexOf b)) ∘
      (fun e : Edge => ((nodeListOf rows).indexOf e.2.1, int32ofInt e.2.2))) =
      fun e : Edge =>
        decide ((nodeListOf rows).indexOf e.2.1 = (nodeListOf rows).indexOf b) := rfl
  have hcomp2 : (Prod.snd ∘
      (fun e : Edge => ((nodeListOf rows).indexOf e.2.1, int32ofInt e.2.2))) =
      fun e : Edge => int32ofInt e.2.2 := rfl
  rw [hcomp1, hcomp2, find?_eq_head?_filter, List.filter_filter, ← List.head?_map]
  congr 2
  apply List.filter_congr
  intro e hef
  have hdm : e.2.1 ∈ nodeListOf rows := (edgeList_endpoints hef).2
  by_cases hsrc : e.1 = a
  · by_cases hd : e.2.1 = b
    · simp [hd, hsrc]
    · have hne : ¬((nodeListOf rows).indexOf e.2.1 = (nodeListOf rows).indexOf b) := by
        rw [List.indexOf_inj hdm hb]
        exact hd
      simp [hd, hsrc, hne]
  · simp [hsrc]

theorem filter_pair_weights_sorted (rows : List Row) (a b : String) :
    List.Pairwise (· < ·)
      (((edgeListOf rows).filter (fun e => decide (e.1 = a ∧ e.2.1 = b))).map
        (fun e : Edge => e.2.2)) := by
  rw [List.pairwise_map]
  have h1 : List.Pairwise EdgeLeP
      ((edgeListOf rows).filter (fun e => decide (e.1 = a ∧ e.2.1 = b))) :=
    (edgeList_sorted rows).filter _
  have h2 : List.Pairwise (fun e f : Edge => e ≠ f)
      ((edgeListOf rows).filter (fun e => decide (e.1 = a ∧ e.2.1 = b))) :=
    (List.filter_sublist _).nodup (edgeList_nodup rows)
  refine (h1.and h2).imp_of_mem ?_
  intro e f he hf hco
  have hea : e.1 = a ∧ e.2.1 = b := by simpa using (List.mem_filter.mp he).2
  have hfa : f.1 = a ∧ f.2.1 = b := by simpa using (List.mem_filter.mp hf).2
  have hwle : e.2.2 ≤ f.2.2 :=
    EdgeLeB_weight_le hco.1 (hea.1.trans hfa.1.symm) (hea.2.trans hfa.2.symm)
  have hwne : e.2.2 ≠ f.2.2 := by
    intro hc
    exact hco.2 (Prod.ext_iff.mpr ⟨hea.1.trans hfa.1.symm,
      Prod.ext_iff.mpr ⟨hea.2.trans hfa.2.symm, hc⟩⟩)
  exact lt_of_le_of_ne hwle hwne

theorem filter_pair_weights_mem (rows : List Row) (a b : String) (w : Int) :
    (w ∈ ((edgeListOf rows).filter (fun e => decide (e.1 = a ∧ e.2.1 = b))).map
        (fun e : Edge => e.2.2)) ↔
      (a, b, w) ∈ edgeListOf rows := by
  rw [List.mem_map]
  constructor
  · rintro ⟨e, hef, hw⟩
    have heE := (List.mem_filter.mp hef).1
    have hco : e.1 = a ∧ e.2.1 = b := by simpa using (List.mem_filter.mp hef).2
    have hee : e = (a, b, w) :=
      Prod.ext_iff.mpr ⟨hco.1, Prod.ext_iff.mpr ⟨hco.2, hw⟩⟩
    rwa [hee] at heE
  · intro hw
    exact ⟨(a, b, w), List.mem_filter.mpr ⟨hw, by simp⟩, rfl⟩

theorem filter_pair_weights_swap (rows : List Row) (a b : String) :
    ((edgeListOf rows).filter (fun e => decide (e.1 = a ∧ e.2.1 = b))).map
        (fun e : Edge => e.2.2) =
      ((edgeListOf rows).filter (fun e => decide (e.1 = b ∧ e.2.1 = a))).map
        (fun e : Edge => e.2.2) := by
  have hs1 := filter_pair_weights_sorted rows a b
  have hs2 := filter_pair_weights_sorted rows b a
  have hmem : ∀ x : Int,
      (x ∈ ((edgeListOf rows).filter (fun e => decide (e.1 = a ∧ e.2.1 = b))).map
        (fun e : Edge => e.2.2)) ↔
      (x ∈ ((edgeListOf rows).filter (fun e => decide (e.1 = b ∧ e.2.1 = a))).map
        (fun e : Edge => e.2.2)) := by
    intro x
    rw [filter_pair_weights_mem, filter_pair_weights_mem]
    exact edgeList_swap rows a b x
  have hnd1 : List.Pairwise (fun x y : Int => x ≠ y) _ := hs1.imp (fun h => ne_of_lt h)
  have hnd2 : List.Pairwise (fun x y : Int => x ≠ y) _ := hs2.imp (fun h => ne_of_lt h)
  have hperm := (List.perm_ext_iff_of_nodup hnd1 hnd2).mpr hmem
  exact List.eq_of_perm_of_sorted hperm (hs1.imp (fun h => le_of_lt h))
    (hs2.imp (fun h => le_of_lt h))

theorem has_edge_iff (rows : List Row) (a b : String)
    (ha : a ∈ nodeListOf rows) (hb : b ∈ nodeListOf rows) :
    (((buildGraph rows).has_edge a b).1 = true) ↔
      ∃ w : Int, (a, b, w) ∈ edgeListOf rows := by
  have hia : (nodeListOf rows).indexOf a < (nodeListOf rows).length :=
    List.indexOf_lt_length.mpr ha
  rw [has_edge_fst_of_lookups (buildGraph rows) a b _ _
    (buildGraph_lookup rows a ha) (buildGraph_lookup rows b hb),
    buildGraph_edge_to,
    mapped_edge_slice rows _ ((nodeListOf rows).indexOf a) hia,
    getD_indexOf_self rows a ha, any_map_general, List.any_eq_true]
  constructor
  · rintro ⟨e, hef, hdec⟩
    have heE := (List.mem_filter.mp hef).1
    have hsrc : e.1 = a := by simpa using (List.mem_filter.mp hef).2
    have hdm : e.2.1 ∈ nodeListOf rows := (edgeList_endpoints heE).2
    have hdst : e.2.1 = b := by
      have hidx : (nodeListOf rows).indexOf e.2.1 = (nodeListOf rows).indexOf b := by
        simpa using hdec
      exact (List.indexOf_inj hdm hb).mp hidx
    refine ⟨e.2.2, ?_⟩
    have hee : e = (a, b, e.2.2) :=
      Prod.ext_iff.mpr ⟨hsrc, Prod.ext_iff.mpr ⟨hdst, rfl⟩⟩
    rwa [hee] at heE
  · rintro ⟨w, hw⟩
    exact ⟨(a, b, w), List.mem_filter.mpr ⟨hw, by simp⟩, by simp⟩

/-- C8: for every row both the edge and its inverse are stored with the
same weight, so the stored edge list is symmetric as a set of triples,
and for node names present in the graph has_edge and weight are
symmetric in their two arguments. -/
theorem claim_c8_symmetry (rows : List Row) (a b : String) (w : Int)
    (ha : a ∈ (buildGraph rows).nodes) (hb : b ∈ (buildGraph rows).nodes) :
    ((a, b, w) ∈ edgeListOf rows ↔ (b, a, w) ∈ edgeListOf rows) ∧
    ((buildGraph rows).has_edge a b).1 = ((buildGraph rows).has_edge b a).1 ∧
    ((buildGraph rows).weight a b).1 = ((buildGraph rows).weight b a).1 := by
  rw [buildGraph_nodes] at ha hb
  refine ⟨edgeList_swap rows a b w, ?_, ?_⟩
  · have h1 := has_edge_iff rows a b ha hb
    have h2 := has_edge_iff rows b a hb ha
    have hsym : (∃ w0 : Int, (a, b, w0) ∈ edgeListOf rows) ↔
        (∃ w0 : Int, (b, a, w0) ∈ edgeListOf rows) := by
      constructor
      · rintro ⟨w0, hw⟩
        exact ⟨w0, (edgeList_swap rows a b w0).mp hw⟩
      · rintro ⟨w0, hw⟩
        exact ⟨w0, (edgeList_swap rows a b w0).mpr hw⟩
    cases hab : ((buildGraph rows).has_edge a b).1 <;>
      cases hba : ((buildGraph rows).has_edge b a).1 <;>
      simp_all
  · rw [weight_value rows a b ha hb, weight_value rows b a hb ha]
    have hcomp : (fun e : Edge => int32ofInt e.2.2) =
        (int32ofInt ∘ fun e : Edge => e.2.2) := rfl
    rw [hcomp, ← List.map_map, ← List.map_map, filter_pair_weights_swap rows a b]

theorem claim_c8_witness :
    "a" ∈ (buildGraph [("b", "a", 5)]).nodes ∧
    "b" ∈ (buildGraph [("b", "a", 5)]).nodes ∧
    ((("a", "b", (5 : Int)) ∈ edgeListOf [("b", "a", 5)] ↔
        (("b", "a", (5 : Int)) ∈ edgeListOf [("b", "a", 5)])) ∧
     ((buildGraph [("b", "a", 5)]).has_edge "a" "b").1 =
        ((buildGraph [("b", "a", 5)]).has_edge "b" "a").1 ∧
     ((buildGraph [("b", "a", 5)]).weight "a" "b").1 =
        ((buildGraph [("b", "a", 5)]).weight "b" "a").1) :=
  ⟨by decide, by decide,
    claim_c8_symmetry [("b", "a", 5)] "a" "b" 5 (by decide) (by decide)⟩

/-! ## C9: defaultdict behaviour of queries with unknown node names -/

theorem buildGraph_first_lookup (rows : List Row) (h : nodeListOf rows ≠ []) :
    (buildGraph rows).node_to_index_map.lookup ((nodeListOf rows).getD 0 "") =
      some 0 := by
  cases hL : nodeListOf rows with
  | nil => exact absurd hL h
  | cons x xs =>
      have hmem : x ∈ nodeListOf rows := by
        rw [hL]
        exact List.mem_cons_self x xs
      show (buildGraph rows).node_to_index_map.lookup x = some 0
      rw [buildGraph_lookup rows x hmem, hL, List.indexOf_cons_self]

theorem weight_eq_of_lookup_none (g : CSFGraph) (s d : String) (idn : Nat)
    (h1 : g.node_to_index_map.lookup s = none)
    (h2 : g.node_to_index_map.lookup d = some idn) :
    g.weight s d =
      (((((g.edge_to.zip g.edge_weight).drop (g.offsetAt 0)).take
          (g.offsetAt (0 + 1) - g.offsetAt 0)).find?
        (fun p => p.1 = idn)).map Prod.snd,
       { g with node_to_index_map := g.node_to_index_map ++ [(s, 0)] }) := by
  have h2a : (g.node_to_index_map ++ [(s, 0)]).lookup d = some idn :=
    lookup_append_left _ _ _ _ h2
  simp only [CSFGraph.weight, dictGetDefault, h1, h2a]

theorem neighbors_eq_of_lookup_none (g : CSFGraph) (s : String)
    (h1 : g.node_to_index_map.lookup s = none) :
    g.neighbors s =
      (((g.edge_to.drop (g.offsetAt 0)).take
          (g.offsetAt (0 + 1) - g.offsetAt 0)).map
        (fun t => g.index_to_node_map.getD t ""),
       { g with node_to_index_map := g.node_to_index_map ++ [(s, 0)] }) := by
  simp only [CSFGraph.neighbors, dictGetDefault, h1]

theorem has_edge_eq_of_lookup_none (g : CSFGraph) (s d : String) (idn : Nat)
    (h1 : g.node_to_index_map.lookup s = none)
    (h2 : g.node_to_index_map.lookup d = some idn) :
    g.has_edge s d =
      (((g.edge_to.drop (g.offsetAt 0)).take
          (g.offsetAt (0 + 1) - g.offsetAt 0)).any (fun nbr => nbr = idn),
       { g with node_to_index_map := g.node_to_index_map ++ [(s, 0)] }) := by
  have h2a : (g.node_to_index_map ++ [(s, 0)]).lookup d = some idn :=
    lookup_append_left _ _ _ _ h2
  simp only [CSFGraph.has_edge, dictGetDefault, h1, h2a]

/-- C9: querying weight, neighbors or has_edge with an unknown source
name does not fail: the defaultdict silently resolves the unknown name
to index 0, so the query answers exactly as for the alphabetically first
node, and as a side effect the unknown name is appended to
node_to_index_map with value 0, after which it appears in nodes() and
node_count() has grown by one. -/
theorem claim_c9_unknown_name (rows : List Row) (s d : String)
    (hs : s ∉ (buildGraph rows).nodes) (hd : d ∈ (buildGraph rows).nodes) :
    ((buildGraph rows).weight s d).1 =
        ((buildGraph rows).weight ((buildGraph rows).index_to_node_map.getD 0 "") d).1 ∧
    ((buildGraph rows).weight s d).2.node_to_index_map =
        (buildGraph rows).node_to_index_map ++ [(s, 0)] ∧
    ((buildGraph rows).neighbors s).1 =
        ((buildGraph rows).neighbors ((buildGraph rows).index_to_node_map.getD 0 "")).1 ∧
    ((buildGraph rows).neighbors s).2.node_to_index_map =
        (buildGraph rows).node_to_index_map ++ [(s, 0)] ∧
    ((buildGraph rows).has_edge s d).1 =
        ((buildGraph rows).has_edge ((buildGraph rows).index_to_node_map.getD 0 "") d).1 ∧
    ((buildGraph rows).has_edge s d).2.nodes = (buildGraph rows).nodes ++ [s] ∧
    ((buildGraph rows).has_edge s d).2.node_count = (buildGraph rows).node_count + 1 ∧
    s ∈ ((buildGraph rows).has_edge s d).2.nodes ∧
    (∀ x ∈ (buildGraph rows).nodes,
      strLe ((buildGraph rows).index_to_node_map.getD 0 "") x = true) := by
  rw [buildGraph_nodes] at hs hd
  have hne : nodeListOf rows ≠ [] := by
    intro hc
    rw [hc] at hd
    exact absurd hd (List.not_mem_nil d)
  have hn0 : (buildGraph rows).index_to_node_map.getD 0 "" =
      (nodeListOf rows).getD 0 "" := rfl
  have hlan : (buildGraph rows).node_to_index_map.lookup s = none :=
    buildGraph_lookup_none rows s hs
  have hld : (buildGraph rows).node_to_index_map.lookup d =
      some ((nodeListOf rows).indexOf d) := buildGraph_lookup rows d hd
  have hl0 : (buildGraph rows).node_to_index_map.lookup
      ((nodeListOf rows).getD 0 "") = some 0 := buildGraph_first_lookup rows hne
  have hfirst : ∀ x ∈ nodeListOf rows,
      strLe ((nodeListOf rows).getD 0 "") x = true := by
    cases hL : nodeListOf rows with
    | nil =>
        intro x hx
        exact absurd hx (List.not_mem_nil x)
    | cons y ys =>
        intro x hx
        have hsor := nodeList_sorted rows
        rw [hL] at hsor
        show strLe y x = true
        rcases List.mem_cons.mp hx with h | h
        · subst h
          exact strLe_refl x
        · exact (List.pairwise_cons.mp hsor).1 x h
  refine ⟨?_, ?_, ?_, ?_, ?_, ?_, ?_, ?_, ?_⟩
  · rw [hn0, weight_eq_of_lookup_none (buildGraph rows) s d _ hlan hld,
      weight_fst_of_lookups (buildGraph rows) ((nodeListOf rows).getD 0 "") d 0 _
        hl0 hld]
  · rw [weight_eq_of_lookup_none (buildGraph rows) s d _ hlan hld]
  · rw [hn0, neighbors_eq_of_lookup_none (buildGraph rows) s hlan,
      neighbors_eq_of_lookup (buildGraph rows) ((nodeListOf rows).getD 0 "") 0 hl0]
  · rw [neighbors_eq_of_lookup_none (buildGraph rows) s hlan]
  · rw [hn0, has_edge_eq_of_lookup_none (buildGraph rows) s d _ hlan hld,
      has_edge_fst_of_lookups (buildGraph rows) ((nodeListOf rows).getD 0 "") d 0 _
        hl0 hld]
  · rw [has_edge_eq_of_lookup_none (buildGraph rows) s d _ hlan hld]
    show ((buildGraph rows).node_to_index_map ++ [(s, 0)]).map Prod.fst = _
    rw [List.map_append]
    rfl
  · rw [has_edge_eq_of_lookup_none (buildGraph rows) s d _ hlan hld]
    show ((buildGraph rows).node_to_index_map ++ [(s, 0)]).length = _
    rw [List.length_append]
    rfl
  · rw [has_edge_eq_of_lookup_none (buildGraph rows) s d _ hlan hld]
    show s ∈ ((buildGraph rows).node_to_index_map ++ [(s, 0)]).map Prod.fst
    rw [List.map_append]
    simp
  · rw [buildGraph_nodes, hn0]
    exact hfirst

theorem claim_c9_witness :
    "zz" ∉ (buildGraph [("b", "a", 1)]).nodes ∧
    "a" ∈ (buildGraph [("b", "a", 1)]).nodes ∧
    (((buildGraph [("b", "a", 1)]).weight "zz" "a").1 =
        ((buildGraph [("b", "a", 1)]).weight
          ((buildGraph [("b", "a", 1)]).index_to_node_map.getD 0 "") "a").1 ∧
     ((buildGraph [("b", "a", 1)]).weight "zz" "a").2.node_to_index_map =
        (buildGraph [("b", "a", 1)]).node_to_index_map ++ [("zz", 0)] ∧
     ((buildGraph [("b", "a", 1)]).neighbors "zz").1 =
        ((buildGraph [("b", "a", 1)]).neighbors
          ((buildGraph [("b", "a", 1)]).index_to_node_map.getD 0 "")).1 ∧
     ((buildGraph [("b", "a", 1)]).neighbors "zz").2.node_to_index_map =
        (buildGraph [("b", "a", 1)]).node_to_index_map ++ [("zz", 0)] ∧
     ((buildGraph [("b", "a", 1)]).has_edge "zz" "a").1 =
        ((buildGraph [("b", "a", 1)]).has_edge
          ((buildGraph [("b", "a", 1)]).index_to_node_map.getD 0 "") "a").1 ∧
     ((buildGraph [("b", "a", 1)]).has_edge "zz" "a").2.nodes =
        (buildGraph [("b", "a", 1)]).nodes ++ ["zz"] ∧
     ((buildGraph [("b", "a", 1)]).has_edge "zz" "a").2.node_count =
        (buildGraph [("b", "a", 1)]).node_count + 1 ∧
     "zz" ∈ ((buildGraph [("b", "a", 1)]).has_edge "zz" "a").2.nodes ∧
     (∀ x ∈ (buildGraph [("b", "a", 1)]).nodes,
       strLe ((buildGraph [("b", "a", 1)]).index_to_node_map.getD 0 "") x = true)) :=
  ⟨by decide, by decide,
    claim_c9_unknown_name [("b", "a", 1)] "zz" "a" (by decide) (by decide)⟩

end N2V
